import Mathlib

/-! # Conditional requests and the response cache of `http2`

A shallow embedding of `notmodified.go` (`splitETags`, `CheckETag`,
`CheckLastModified`) and `cache.go` (`cacheEntry`, `ResponseCache.Response`),
followed by theorems about them.

Modelling conventions.

* A Go `string` is a list of Unicode code points (`Str`).  The delimiters the
  code tests (`,`, `"`, `W/"`, `*`) are ASCII, so the byte offsets `1`, `3` and
  `len(tag)-1` used by the code are also character offsets.
* A Go map is an association list read through `GoMap.get`, written through
  `GoMap.set` and `GoMap.delete`; the order in which `range` yields the entries
  of the cache map is an explicit argument, because Go leaves it unspecified.
* A run-time panic (here: a slice expression whose bounds are out of range) is
  the result `none`; the response writer reached at that point is still
  reported.
* Wall-clock time is an integer number of nanoseconds since the Unix epoch; the
  clock is a stream of readings, one per call of `time.Now`/`time.Since`.
* Functions of the Go standard library that the code calls but that are not
  part of the repository (`crypto/sha1`, `Time.Format`, `time.Parse`) are the
  fields of `Lib`; `stdlib` is a concrete instance.
-/

namespace Http2

/-! ## Strings -/

/-- Go string, as its sequence of code points. -/
abbrev Str := List Char

/-- Go `unicode.IsSpace`: the Latin-1 spaces and the code points with the
White_Space property. -/
def isSpace (c : Char) : Bool :=
  let n := c.toNat
  n == 0x09 || n == 0x0A || n == 0x0B || n == 0x0C || n == 0x0D || n == 0x20 ||
  n == 0x85 || n == 0xA0 || n == 0x1680 || (0x2000 ≤ n && n ≤ 0x200A) ||
  n == 0x2028 || n == 0x2029 || n == 0x202F || n == 0x205F || n == 0x3000

/-- Go `strings.TrimSpace`: drop the leading and the trailing white space. -/
def TrimSpace (s : Str) : Str :=
  ((s.dropWhile isSpace).reverse.dropWhile isSpace).reverse

/-- The scanning loop of Go `strings.FieldsFunc`: `cur` is the field that is
open at this point (`none` when the scan is between fields). -/
def FieldsFunc.loop (f : Char → Bool) : Str → Option Str → List Str
  | [], none => []
  | [], some w => [w]
  | c :: cs, none => if f c then loop f cs none else loop f cs (some [c])
  | c :: cs, some w => if f c then w :: loop f cs none else loop f cs (some (w ++ [c]))

/-- Go `strings.FieldsFunc`: the maximal non-empty runs of code points that do
not satisfy `f`. -/
def FieldsFunc (s : Str) (f : Char → Bool) : List Str :=
  FieldsFunc.loop f s none

/-- Go `strings.HasPrefix`. -/
def HasPrefix (s p : Str) : Bool := p.isPrefixOf s

/-- Go `strings.HasSuffix`. -/
def HasSuffix (s p : Str) : Bool := p.isSuffixOf s

/-- Go slice expression `s[lo:hi]` on a string: `none` is the run-time panic
"slice bounds out of range". -/
def sliceStr (s : Str) (lo hi : Int) : Option Str :=
  if 0 ≤ lo ∧ lo ≤ hi ∧ hi ≤ (s.length : Int) then
    some ((s.take hi.toNat).drop lo.toNat)
  else none

/-! ## `splitETags` -/

/-- Body of the `for ... range` loop of `splitETags`, over the fields still to
visit, with the tags appended so far. -/
def splitETags.loop (weak : Bool) : List Str → List Str → Option (List Str)
  | [], tags => some tags
  | field :: rest, tags =>
    let tag := TrimSpace field
    if weak && HasPrefix tag ['W', '/', '"'] && HasSuffix tag ['"'] then
      match sliceStr tag 3 ((tag.length : Int) - 1) with
      | none => none
      | some t => loop weak rest (tags ++ [t])
    else if HasPrefix tag ['"'] && HasSuffix tag ['"'] then
      match sliceStr tag 1 ((tag.length : Int) - 1) with
      | none => none
      | some t => loop weak rest (tags ++ [t])
    else loop weak rest tags

/-- Go `splitETags(header, weak, actual)`; `none` when a slice expression
panics. -/
def splitETags (header : Str) (weak : Bool) (actual : Str) : Option (List Str) :=
  if header = ['*'] then some [actual]
  else splitETags.loop weak (FieldsFunc header (fun r => r == ',')) []

/-! ## Maps, headers, requests and response writers -/

/-- Go `map[K]V`, as an association list in which the first binding of a key
is the one in force. -/
abbrev GoMap (κ ν : Type) := List (κ × ν)

/-- Go map index expression `m[k]` (`none` when the key is absent). -/
def GoMap.get {κ ν : Type} [DecidableEq κ] (m : GoMap κ ν) (k : κ) : Option ν :=
  match m with
  | [] => none
  | (k', v) :: rest => if k' = k then some v else GoMap.get rest k

/-- Go builtin `delete(m, k)`. -/
def GoMap.delete {κ ν : Type} [DecidableEq κ] (m : GoMap κ ν) (k : κ) : GoMap κ ν :=
  m.filter (fun b => decide (b.1 ≠ k))

/-- Go map assignment `m[k] = v`. -/
def GoMap.set {κ ν : Type} [DecidableEq κ] (m : GoMap κ ν) (k : κ) (v : ν) : GoMap κ ν :=
  (k, v) :: GoMap.delete m k

/-- Go `http.Header`, a `map[string][]string`. -/
abbrev Header := GoMap Str (List Str)

/-- The bytes allowed in a header field name (RFC 7230 token characters), as
tested by `textproto.validHeaderFieldByte`. -/
def validHeaderFieldByte (c : Char) : Bool :=
  c.isAlphanum ||
    [33, 35, 36, 37, 38, 39, 42, 43, 45, 46, 94, 95, 96, 124, 126].contains c.toNat

/-- The rewriting loop of `textproto.canonicalMIMEHeaderKey`: a letter is made
upper case at the start and after a hyphen, lower case elsewhere. -/
def canonicalLoop : Bool → Str → Str
  | _, [] => []
  | upper, c :: cs =>
    let c' := if upper && c.isLower then c.toUpper
              else if !upper && c.isUpper then c.toLower else c
    c' :: canonicalLoop (c' == '-') cs

/-- Go `textproto.CanonicalMIMEHeaderKey`: a key holding a byte that is not
allowed in a field name is returned unchanged. -/
def CanonicalMIMEHeaderKey (s : Str) : Str :=
  if s.all validHeaderFieldByte then canonicalLoop true s else s

/-- Go `Header.Get`: the first value stored under the canonical form of the
key, or the empty string. -/
def Header.Get (h : Header) (key : Str) : Str :=
  match GoMap.get h (CanonicalMIMEHeaderKey key) with
  | some (v :: _) => v
  | _ => []

/-- Go `Header.Set`: the canonical form of the key is bound to the single
value. -/
def Header.Set (h : Header) (key value : Str) : Header :=
  GoMap.set h (CanonicalMIMEHeaderKey key) [value]

/-- The part of Go `*http.Request` that handlers can tell requests apart by. -/
structure Request where
  Method : Str
  URL : Str
  Header : Header
  deriving DecidableEq

/-- One call made on an `http.ResponseWriter` after its header map was
prepared: `WriteHeader(code)`, with the header map as it stood at the call, or
`Write(body)`. -/
inductive WriteEvent where
  | status (code : Int) (sent : Header)
  | body (bytes : List UInt8)
  deriving DecidableEq

/-- Go `http.ResponseWriter`, as the header map returned by `Header()` and the
calls of `WriteHeader` and `Write` made so far, oldest first. -/
structure ResponseWriter where
  header : Header
  calls : List WriteEvent
  deriving DecidableEq

/-- Go `w.WriteHeader(code)`. -/
def ResponseWriter.WriteHeader (w : ResponseWriter) (code : Int) : ResponseWriter :=
  { w with calls := w.calls ++ [WriteEvent.status code w.header] }

/-- Go `w.Write(b)`. -/
def ResponseWriter.Write (w : ResponseWriter) (b : List UInt8) : ResponseWriter :=
  { w with calls := w.calls ++ [WriteEvent.body b] }

/-- Go `w.Header().Set(key, value)`. -/
def ResponseWriter.SetHeader (w : ResponseWriter) (key value : Str) : ResponseWriter :=
  { w with header := Header.Set w.header key value }

/-- The status codes written on `w`, oldest first. -/
def ResponseWriter.statuses (w : ResponseWriter) : List Int :=
  w.calls.filterMap (fun ev => match ev with
    | WriteEvent.status code _ => some code
    | WriteEvent.body _ => none)

/-- The body chunks written on `w`, oldest first. -/
def ResponseWriter.bodies (w : ResponseWriter) : List (List UInt8) :=
  w.calls.filterMap (fun ev => match ev with
    | WriteEvent.status _ _ => none
    | WriteEvent.body b => some b)

/-- The header maps in force at the calls of `WriteHeader` on `w`, oldest
first. -/
def ResponseWriter.sent (w : ResponseWriter) : List Header :=
  w.calls.filterMap (fun ev => match ev with
    | WriteEvent.status _ hs => some hs
    | WriteEvent.body _ => none)

/-- Go `http.StatusNotModified`. -/
def StatusNotModified : Int := 304

/-! ## `CheckETag` -/

/-- Go `CheckETag(etag, weak, w, r)`: the writer after the call, and the
returned boolean (`none` when `splitETags` panicked). -/
def CheckETag (etag : Str) (weak : Bool) (w : ResponseWriter) (r : Request) :
    ResponseWriter × Option Bool :=
  let w1 := if weak then w.SetHeader "ETag".toList (['W', '/', '"'] ++ etag ++ ['"'])
            else w.SetHeader "ETag".toList (['"'] ++ etag ++ ['"'])
  match splitETags (r.Header.Get "If-None-Match".toList) weak etag with
  | none => (w1, none)
  | some tags =>
    if tags.any (fun tag => decide (tag = etag)) then
      (w1.WriteHeader StatusNotModified, some true)
    else (w1, some false)

/-! ## Time and the standard library -/

/-- Go `time.Time`: nanoseconds since the Unix epoch, in UTC. -/
abbrev Time := Int

/-- Go `time.Duration`: a number of nanoseconds. -/
abbrev Duration := Int

/-- The readings that successive calls of `time.Now` return. -/
abbrev Clock := Nat → Time

/-- The reading the next call of `time.Now` returns. -/
def Clock.now (clk : Clock) : Time := clk 0

/-- The clock after one reading was taken. -/
def Clock.tail (clk : Clock) : Clock := fun n => clk (n + 1)

/-- The functions of the Go standard library used by the package:
`sha1` is the digest of `crypto/sha1`, `formatTime t` is
`t.Format(http.TimeFormat)` and `parseTime s` is
`time.Parse(http.TimeFormat, s)` (`none` for a parse error). -/
structure Lib where
  sha1 : List UInt8 → List UInt8
  formatTime : Time → Str
  parseTime : Str → Option Time

/-! ## `CheckLastModified` -/

/-- Go `CheckLastModified(lastModified, w, r)`: the writer after the call and
the returned boolean. -/
def CheckLastModified (lib : Lib) (lastModified : Time) (w : ResponseWriter) (r : Request) :
    ResponseWriter × Bool :=
  let w1 := w.SetHeader "Last-Modified".toList (lib.formatTime lastModified)
  match lib.parseTime (r.Header.Get "If-Modified-Since".toList) with
  | none => (w1, false)
  | some t =>
    if lastModified > t then (w1, false)
    else (w1.WriteHeader StatusNotModified, true)

/-! ## Cache entries -/

/-- Go constant `maxVisitedCacheEntries`. -/
def maxVisitedCacheEntries : Nat := 100

/-- Go `struct cacheEntry`. -/
structure cacheEntry where
  start : Time
  «end» : Time
  code : Int
  etag : Str
  headers : Header
  body : List UInt8
  deriving DecidableEq

/-- Go `httptest.ResponseRecorder`: what a producer wrote. -/
structure ResponseRecorder where
  Code : Int
  HeaderMap : Header
  Body : List UInt8
  deriving DecidableEq

/-- Go `httptest.NewRecorder()`. -/
def NewRecorder : ResponseRecorder :=
  { Code := 200, HeaderMap := [], Body := [] }

/-- The producer callback `f func(http.ResponseWriter)`: it is handed a
recorder and leaves it filled in; `σ` is whatever state of its own the
callback reads and changes when it runs. -/
abbrev Producer (σ : Type) := σ → ResponseRecorder → σ × ResponseRecorder

/-- One lower-case hexadecimal digit. -/
def hexDigit (n : Nat) : Char :=
  if n < 10 then Char.ofNat (48 + n) else Char.ofNat (87 + n)

/-- Go `fmt.Sprintf("%x", b)` on a byte slice: two lower-case hexadecimal
digits per byte. -/
def hexEncode : List UInt8 → Str
  | [] => []
  | b :: bs => hexDigit (b.toNat / 16) :: hexDigit (b.toNat % 16) :: hexEncode bs

/-- Go `strconv.FormatInt(int64(n), 10)` for a length `n`. -/
def FormatInt (n : Nat) : Str := Nat.toDigits 10 n

/-- Go `(e *cacheEntry).cache(f)`: the entry after the call and the state of
the producer after its run. -/
def cacheEntry.cache {σ : Type} (lib : Lib) (e : cacheEntry) (f : Producer σ) (s : σ) :
    cacheEntry × σ :=
  let run := f s NewRecorder
  let recorder := run.2
  let headers := Header.Set recorder.HeaderMap "Expires".toList (lib.formatTime e.end)
  let headers := Header.Set headers "Content-Length".toList (FormatInt recorder.Body.length)
  ({ e with
      code := recorder.Code
      headers := headers
      body := recorder.Body
      etag := hexEncode (lib.sha1 recorder.Body) }, run.1)

/-- The loop `for k, v := range e.headers { w.Header()[k] = v }`.  The
bindings of the association list are visited last to first, so that a shadowed
binding never overrides the one in force. -/
def copyHeaders (src dst : Header) : Header :=
  src.foldr (fun kv acc => GoMap.set acc kv.1 kv.2) dst

/-- Go `(e *cacheEntry).serve(w, r)`: the writer after the call, and whether
the call returned (`none` when `CheckETag` panicked). -/
def cacheEntry.serve (lib : Lib) (e : cacheEntry) (w : ResponseWriter) (r : Request) :
    ResponseWriter × Option Unit :=
  let w0 : ResponseWriter := { w with header := copyHeaders e.headers w.header }
  match CheckETag e.etag false w0 r with
  | (w1, none) => (w1, none)
  | (w1, some true) => (w1, some ())
  | (w1, some false) =>
    match CheckLastModified lib e.start w1 r with
    | (w2, true) => (w2, some ())
    | (w2, false) => ((w2.WriteHeader e.code).Write e.body, some ())

/-- Go `(e *cacheEntry).valid()`, that is `time.Since(e.end) < 0`, on the clock
reading `now`. -/
def cacheEntry.valid (e : cacheEntry) (now : Time) : Bool :=
  decide (now - e.end < 0)

/-! ## The response cache -/

/-- Go `struct ResponseCache` (the lock is left out: calls are run one after
the other). -/
structure ResponseCache where
  cached : GoMap Str cacheEntry
  deriving DecidableEq

/-- What a call of `Response` leaves behind: the cache, the state of the
producer, the response writer, the clock, and whether the call returned
(`false` when it panicked). -/
structure Outcome (σ : Type) where
  cache : ResponseCache
  state : σ
  w : ResponseWriter
  clock : Clock
  returned : Bool

/-- The test `cached != nil && cached.valid()` on `cached := c.cached[path]`:
the entry when the test holds, and the clock afterwards (the clock is read only
when an entry was found). -/
def ResponseCache.lookupValid (c : ResponseCache) (clk : Clock) (path : Str) :
    Option cacheEntry × Clock :=
  match GoMap.get c.cached path with
  | none => (none, clk)
  | some e => if e.valid clk.now then (some e, clk.tail) else (none, clk.tail)

/-- The eviction loop `for p, e := range c.cached { ... }` of `Response`:
`order` holds the entries that `range` still has to yield, `visited` is the
counter, and the result is the map and the clock after the loop. -/
def evictLoop : List (Str × cacheEntry) → Nat → GoMap Str cacheEntry → Clock →
    GoMap Str cacheEntry × Clock
  | [], _, m, clk => (m, clk)
  | (p, e) :: rest, visited, m, clk =>
    if visited > maxVisitedCacheEntries then (m, clk)
    else
      let m' := if !e.valid clk.now then GoMap.delete m p else m
      evictLoop rest (visited + 1) m' clk.tail

/-- The part of `Response` that runs under the write lock once both look-ups
failed: the eviction scan, the new entry, its population and its service. -/
def ResponseCache.writePath {σ : Type} (lib : Lib) (c : ResponseCache) (clk : Clock)
    (order : List (Str × cacheEntry)) (path : Str) (d : Duration)
    (w : ResponseWriter) (r : Request) (f : Producer σ) (s : σ) : Outcome σ :=
  let scan := evictLoop order 0 c.cached clk
  let clk1 := scan.2
  let fresh : cacheEntry :=
    { start := clk1.now, «end» := clk1.tail.now + d, code := 0, etag := [],
      headers := [], body := [] }
  let m1 := GoMap.set scan.1 path fresh
  let built := cacheEntry.cache lib fresh f s
  let m2 := GoMap.set m1 path built.1
  let served := cacheEntry.serve lib built.1 w r
  { cache := { cached := m2 }, state := built.2, w := served.1,
    clock := clk1.tail.tail, returned := served.2.isSome }

/-- Go `(c *ResponseCache).Response(path, d, w, r, f)`.  `clk` is the clock,
`order` the order in which `range c.cached` yields the entries should the
eviction loop run, `s` the state of the producer before the call. -/
def ResponseCache.Response {σ : Type} (lib : Lib) (c : ResponseCache) (clk : Clock)
    (order : List (Str × cacheEntry)) (path : Str) (d : Duration)
    (w : ResponseWriter) (r : Request) (f : Producer σ) (s : σ) : Outcome σ :=
  match c.lookupValid clk path with
  | (some cached, clk1) =>
    let served := cacheEntry.serve lib cached w r
    { cache := c, state := s, w := served.1, clock := clk1, returned := served.2.isSome }
  | (none, clk1) =>
    match c.lookupValid clk1 path with
    | (some cached, clk2) =>
      let served := cacheEntry.serve lib cached w r
      { cache := c, state := s, w := served.1, clock := clk2, returned := served.2.isSome }
    | (none, clk2) => c.writePath lib clk2 order path d w r f s

/-! ## A concrete standard library -/

/-- Rotate a 32-bit word to the left. -/
def rotl32 (x n : Nat) : Nat :=
  ((x <<< n) ||| (x >>> (32 - n))) % 2 ^ 32

/-- The big-endian bytes of `n`, `k` of them. -/
def beBytes : Nat → Nat → List Nat
  | 0, _ => []
  | k + 1, n => (n / 256 ^ k) % 256 :: beBytes k n

/-- The big-endian number held in a list of bytes. -/
def beWord (bs : List Nat) : Nat :=
  bs.foldl (fun acc b => acc * 256 + b) 0

/-- SHA-1 padding: a `0x80` byte, zero bytes up to 56 modulo 64, and the length
of the message in bits on eight bytes. -/
def sha1Pad (msg : List Nat) : List Nat :=
  let l := msg.length
  msg ++ [0x80] ++ List.replicate ((119 - l % 64) % 64) 0 ++ beBytes 8 (8 * l)

/-- Cut a list into `n` consecutive pieces of `size` elements. -/
def chunks {α : Type} (size : Nat) : Nat → List α → List (List α)
  | 0, _ => []
  | n + 1, l => l.take size :: chunks size n (l.drop size)

/-- SHA-1 message schedule: extend the words by `k` further ones. -/
def sha1Schedule : Nat → List Nat → List Nat
  | 0, ws => ws
  | k + 1, ws =>
    let i := ws.length
    sha1Schedule k (ws ++ [rotl32 (ws.getD (i - 3) 0 ^^^ ws.getD (i - 8) 0 ^^^
      ws.getD (i - 14) 0 ^^^ ws.getD (i - 16) 0) 1])

/-- The five working words of SHA-1. -/
structure Sha1State where
  a : Nat
  b : Nat
  c : Nat
  d : Nat
  e : Nat
  deriving DecidableEq

/-- One of the eighty rounds of SHA-1, on round number `i` and schedule word
`wi`. -/
def sha1Round (st : Sha1State) (i wi : Nat) : Sha1State :=
  let fk : Nat × Nat :=
    if i < 20 then ((st.b &&& st.c) ||| ((st.b ^^^ 0xFFFFFFFF) &&& st.d), 0x5A827999)
    else if i < 40 then (st.b ^^^ st.c ^^^ st.d, 0x6ED9EBA1)
    else if i < 60 then ((st.b &&& st.c) ||| (st.b &&& st.d) ||| (st.c &&& st.d), 0x8F1BBCDC)
    else (st.b ^^^ st.c ^^^ st.d, 0xCA62C1D6)
  { a := (rotl32 st.a 5 + fk.1 + st.e + fk.2 + wi) % 2 ^ 32
    b := st.a
    c := rotl32 st.b 30
    d := st.c
    e := st.d }

/-- The eighty rounds, over the schedule words still to use. -/
def sha1Rounds : List Nat → Nat → Sha1State → Sha1State
  | [], _, st => st
  | wi :: ws, i, st => sha1Rounds ws (i + 1) (sha1Round st i wi)

/-- The SHA-1 compression of one 64-byte block into the chaining value. -/
def sha1Block (h : Sha1State) (block : List Nat) : Sha1State :=
  let ws := sha1Schedule 64 ((chunks 4 16 block).map beWord)
  let st := sha1Rounds ws 0 h
  { a := (h.a + st.a) % 2 ^ 32, b := (h.b + st.b) % 2 ^ 32, c := (h.c + st.c) % 2 ^ 32,
    d := (h.d + st.d) % 2 ^ 32, e := (h.e + st.e) % 2 ^ 32 }

/-- Go `sha1.Sum`: the 20-byte SHA-1 digest (FIPS 180-4). -/
def sha1Sum (msg : List UInt8) : List UInt8 :=
  let padded := sha1Pad (msg.map UInt8.toNat)
  let h := (chunks 64 (padded.length / 64) padded).foldl sha1Block
    { a := 0x67452301, b := 0xEFCDAB89, c := 0x98BADCFE, d := 0x10325476, e := 0xC3D2E1F0 }
  ([h.a, h.b, h.c, h.d, h.e].flatMap (beBytes 4)).map UInt8.ofNat

/-- Number of nanoseconds in a second. -/
def nsPerSecond : Int := 1000000000

/-- The civil date (year, month, day) of a day number counted from
1970-01-01, in the proleptic Gregorian calendar. -/
def civilFromDays (days : Int) : Int × Int × Int :=
  let z := days + 719468
  let era := z / 146097
  let doe := z - era * 146097
  let yoe := (doe - doe / 1460 + doe / 36524 - doe / 146096) / 365
  let doy := doe - (365 * yoe + yoe / 4 - yoe / 100)
  let mp := (5 * doy + 2) / 153
  let d := doy - (153 * mp + 2) / 5 + 1
  let m := if mp < 10 then mp + 3 else mp - 9
  (if m ≤ 2 then yoe + era * 400 + 1 else yoe + era * 400, m, d)

/-- The day number, counted from 1970-01-01, of a civil date. -/
def daysFromCivil (y m d : Int) : Int :=
  let y' := if m ≤ 2 then y - 1 else y
  let era := y' / 400
  let yoe := y' - era * 400
  let doy := (153 * (if m > 2 then m - 3 else m + 9) + 2) / 5 + d - 1
  let doe := yoe * 365 + yoe / 4 - yoe / 100 + doy
  era * 146097 + doe - 719468

/-- Go `time.shortDayNames`. -/
def shortDayNames : List Str :=
  ["Sun".toList, "Mon".toList, "Tue".toList, "Wed".toList, "Thu".toList, "Fri".toList,
   "Sat".toList]

/-- Go `time.shortMonthNames`. -/
def shortMonthNames : List Str :=
  ["Jan".toList, "Feb".toList, "Mar".toList, "Apr".toList, "May".toList, "Jun".toList,
   "Jul".toList, "Aug".toList, "Sep".toList, "Oct".toList, "Nov".toList, "Dec".toList]

/-- A number in decimal, padded with zeros on the left to `width` digits. -/
def zeroPad (width : Nat) (n : Int) : Str :=
  let ds := Nat.toDigits 10 n.natAbs
  (if n < 0 then ['-'] else []) ++ List.replicate (width - ds.length) '0' ++ ds

/-- Go `t.Format(http.TimeFormat)` for a time in UTC, the layout being
`Mon, 02 Jan 2006 15:04:05 GMT`: the sub-second part is not rendered. -/
def formatHTTPDate (t : Time) : Str :=
  let secs := t / nsPerSecond
  let days := secs / 86400
  let sod := secs % 86400
  let ymd := civilFromDays days
  shortDayNames.getD ((days + 4) % 7).toNat [] ++ ", ".toList ++ zeroPad 2 ymd.2.2 ++
    " ".toList ++ shortMonthNames.getD (ymd.2.1 - 1).toNat [] ++ " ".toList ++
    zeroPad 4 ymd.1 ++ " ".toList ++ zeroPad 2 (sod / 3600) ++ ":".toList ++
    zeroPad 2 (sod % 3600 / 60) ++ ":".toList ++ zeroPad 2 (sod % 60) ++ " GMT".toList

/-- The number written by a list of decimal digits (`none` when a character is
not a digit). -/
def parseDigits : Str → Option Nat
  | [] => some 0
  | cs =>
    if cs.all Char.isDigit then some (cs.foldl (fun acc c => acc * 10 + (c.toNat - 48)) 0)
    else none

/-- The number of days of a month (Go `time.daysIn`). -/
def daysIn (m y : Nat) : Nat :=
  if m = 2 then (if y % 4 = 0 ∧ (y % 100 ≠ 0 ∨ y % 400 = 0) then 29 else 28)
  else if m = 4 ∨ m = 6 ∨ m = 9 ∨ m = 11 then 30 else 31

/-- Go `time.Parse(http.TimeFormat, s)` on the fixed-width form
`Www, DD Mon YYYY HH:MM:SS GMT` that `formatHTTPDate` produces, with the range
checks of `time.Parse`; as there, the day name is not compared with the date.
Other spellings that `time.Parse` tolerates (a one-digit hour, a fractional
second, names in another case) are answered `none` here. -/
def parseHTTPDate (s : Str) : Option Time :=
  if s.length ≠ 29 then none
  else if (s.drop 3).take 2 ≠ ", ".toList ∨ (s.drop 7).take 1 ≠ " ".toList ∨
      (s.drop 11).take 1 ≠ " ".toList ∨ (s.drop 16).take 1 ≠ " ".toList ∨
      (s.drop 19).take 1 ≠ ":".toList ∨ (s.drop 22).take 1 ≠ ":".toList ∨
      s.drop 25 ≠ " GMT".toList ∨ ¬ (s.take 3 ∈ shortDayNames) then none
  else
    match parseDigits ((s.drop 5).take 2), shortMonthNames.indexOf? ((s.drop 8).take 3),
      parseDigits ((s.drop 12).take 4), parseDigits ((s.drop 17).take 2),
      parseDigits ((s.drop 20).take 2), parseDigits ((s.drop 23).take 2) with
    | some day, some mi, some year, some hh, some mm, some ss =>
      if day < 1 ∨ day > daysIn (mi + 1) year ∨ hh ≥ 24 ∨ mm ≥ 60 ∨ ss ≥ 60 then none
      else
        some (((daysFromCivil year (mi + 1) day * 86400 + hh * 3600 + mm * 60 + ss) : Int)
          * nsPerSecond)
    | _, _, _, _, _, _ => none

/-- The standard library: SHA-1 and the HTTP date format. -/
def stdlib : Lib :=
  { sha1 := sha1Sum, formatTime := formatHTTPDate, parseTime := parseHTTPDate }

/-! ## The candidate set as the specification words it -/

/-- The inner content an element of `If-None-Match` contributes according to
the specification: an element of the form `W/"…"` contributes when weak
matching is requested, an element of the form `"…"` always does, and an
element without a pair of surrounding quotes is discarded. -/
def specElement (weak : Bool) (el : Str) : Option Str :=
  if weak = true ∧ 4 ≤ el.length ∧ el.take 3 = ['W', '/', '"'] ∧ el.getLast? = some '"' then
    some ((el.drop 3).dropLast)
  else if 2 ≤ el.length ∧ el.head? = some '"' ∧ el.getLast? = some '"' then
    some ((el.drop 1).dropLast)
  else none

/-- The candidate set of the specification: the current tag when the header is
exactly `*`; otherwise the header is split on commas, each element is trimmed,
and the elements contribute as `specElement` says. -/
def specCandidates (header : Str) (weak : Bool) (tag : Str) : List Str :=
  if header = ['*'] then [tag]
  else ((header.splitOn ',').map TrimSpace).filterMap (specElement weak)

/-- The trimmed elements on which the slice expressions of `splitETags` are out
of range: a lone quote, and `W/"` when weak matching is requested. -/
abbrev panicsOn (weak : Bool) (t : Str) : Prop :=
  t = ['"'] ∨ (weak = true ∧ t = ['W', '/', '"'])

/-! ## Concrete inputs -/

/-- A response writer on which nothing was set or written yet. -/
def emptyWriter : ResponseWriter := { header := [], calls := [] }

/-- A `GET /a` request carrying the given headers. -/
def requestWith (hs : Header) : Request :=
  { Method := "GET".toList, URL := "/a".toList, Header := hs }

/-- The bytes of an ASCII string. -/
def asBytes (s : String) : List UInt8 :=
  s.toList.map (fun c => UInt8.ofNat c.toNat)

/-- A producer that writes a status code and a body, and counts its runs. -/
def writeBody (code : Int) (body : List UInt8) : Producer Nat :=
  fun runs recorder => (runs + 1, { recorder with Code := code, Body := recorder.Body ++ body })

/-- A request whose `If-None-Match` lists the tag `abc` and then a lone quote. -/
def loneQuoteRequest : Request :=
  requestWith [("If-None-Match".toList, ["\"abc\",\"".toList])]

/-- An entry made at 2012-01-01 00:00:00.5 UTC with a life of two hours, and
populated by a producer that writes `hi` with status 200. -/
def hiEntry : cacheEntry :=
  (cacheEntry.cache stdlib
    { start := 1325376000500000000, «end» := 1325383200500000000, code := 0, etag := [],
      headers := [], body := [] }
    (writeBody 200 (asBytes "hi")) 0).1

/-- A request whose `If-None-Match` is the quoted SHA-1 digest of `hi`. -/
def hiRequest : Request :=
  requestWith [("If-None-Match".toList, ["\"c22b5f9178342609428d6f51b2c5af4c0bde6a42\"".toList])]

/-- A request whose `If-None-Match` is `*`. -/
def starRequest : Request :=
  requestWith [("If-None-Match".toList, [['*']])]

/-- A clock that reads 2012-01-01 00:00:00.5 UTC at every call. -/
def halfPastClock : Clock := fun _ => 1325376000500000000

/-- A clock that reads 2012-01-01 00:00:01.5 UTC at every call. -/
def laterClock : Clock := fun _ => 1325376001500000000

/-- Two hours, as a `time.Duration`. -/
def twoHours : Duration := 7200000000000

/-- The call `Response("/a", 2*time.Hour, w, r, f)` on an empty cache at
2012-01-01 00:00:00.5 UTC, for a request without conditional headers and a
producer that writes `hi` with status 200. -/
def firstCall : Outcome Nat :=
  ResponseCache.Response stdlib { cached := [] } halfPastClock [] "/a".toList twoHours
    emptyWriter (requestWith []) (writeBody 200 (asBytes "hi")) 0

/-- A request that sends back, as `If-Modified-Since`, the `Last-Modified`
value of the response to `firstCall`. -/
def echoRequest : Request :=
  requestWith [("If-Modified-Since".toList, ["Sun, 01 Jan 2012 00:00:00 GMT".toList])]

/-- The call for the same path one second after `firstCall`, with
`echoRequest`. -/
def secondCall : Outcome Nat :=
  ResponseCache.Response stdlib firstCall.cache laterClock firstCall.cache.cached "/a".toList
    twoHours emptyWriter echoRequest (writeBody 200 (asBytes "hi")) firstCall.state

/-- A producer that sets an `ETag` header of its own, then writes a status
code and a body, and counts its runs. -/
def writeTagged (tag : Str) (code : Int) (body : List UInt8) : Producer Nat :=
  fun runs recorder =>
    (runs + 1, { recorder with
      HeaderMap := Header.Set recorder.HeaderMap "ETag".toList tag
      Code := code
      Body := recorder.Body ++ body })

/-- An entry populated by a producer that sets the header `ETag: v1` and
writes `hi` with status 200. -/
def taggedEntry : cacheEntry :=
  (cacheEntry.cache stdlib
    { start := 1325376000500000000, «end» := 1325383200500000000, code := 0, etag := [],
      headers := [], body := [] }
    (writeTagged "v1".toList 200 (asBytes "hi")) 0).1

/-- An entry whose end, one nanosecond after the epoch, is long past. -/
def expiredEntry : cacheEntry :=
  { start := 0, «end» := 1, code := 200, etag := [], headers := [], body := [] }

/-- A cache that holds `n` expired entries, under the keys `0`, `1`, … written
in decimal. -/
def expiredCache (n : Nat) : ResponseCache :=
  { cached := (List.range n).map (fun i => (Nat.toDigits 10 i, expiredEntry)) }

/-- The call `Response("/new", 2*time.Hour, w, r, f)` on a cache that holds 102
expired entries, which `range` yields in the order of their keys. -/
def crowdedCall : Outcome Nat :=
  ResponseCache.Response stdlib (expiredCache 102) halfPastClock (expiredCache 102).cached
    "/new".toList twoHours emptyWriter (requestWith []) (writeBody 200 (asBytes "hi")) 0

/-- A cache that holds `hiEntry` under the key `/a`. -/
def hiCache : ResponseCache := { cached := [("/a".toList, hiEntry)] }

/-- A clock that reads 2012-01-01 03:00:00 UTC at every call, after the end of
`hiEntry`. -/
def threeOClock : Clock := fun _ => 1325386800000000000

/-- The seven bytes of the JSON text with the one member `"x":1`. -/
def exampleBody : List UInt8 := asBytes "\x7b\"x\":1\x7d"

/-- The call `Response("/a", 2*time.Hour, w, r, f)` on an empty cache, for a
request without conditional headers and a producer that writes `exampleBody`
with status 200, on the clock `clk`. -/
def exampleCall (clk : Clock) : Outcome Nat :=
  ResponseCache.Response stdlib { cached := [] } clk [] "/a".toList twoHours
    emptyWriter (requestWith []) (writeBody 200 exampleBody) 0

/-- A request whose `If-None-Match` is the weak form `W/"a,b"` of the tag
`a,b`. -/
def commaTagRequest : Request :=
  requestWith [("If-None-Match".toList, ["W/\"a,b\"".toList])]

/-- A clock that starts at 2012-01-01 00:00:00 UTC and advances by one
nanosecond at every reading. -/
def tickClock : Clock := fun n => 1325376000000000000 + (n : Int)

/-- The key written `k`, then `n` times `x`. -/
def unaryKey (n : Nat) : Str := 'k' :: List.replicate n 'x'

/-- The numbers `n - 1`, …, `1`, `0`, largest first. -/
def countdown : Nat → List Nat
  | 0 => []
  | n + 1 => n :: countdown n

/-- The binding of number `n` in the run `shieldedRun`: the key `unaryKey n`
holds the expired `expiredEntry` when `n < 5152`, and the entry `hiEntry`, valid
until 02:00:00.5, otherwise. -/
def slot (n : Nat) : Str × cacheEntry :=
  (unaryKey n, if n < 5152 then expiredEntry else hiEntry)

/-- A cache that holds three expired entries. -/
def smallStaleCache : ResponseCache := { cached := (countdown 3).map slot }

/-- The number of bindings of the map whose entry is valid at `now`. -/
def validCount (now : Time) (m : GoMap Str cacheEntry) : Nat :=
  m.countP (fun b => b.2.valid now)

/-- The arguments of one call of `Response`, with the order in which `range`
yields the entries of the map during that call. -/
structure Call (σ : Type) where
  key : Str
  ttl : Duration
  order : List (Str × cacheEntry)
  w : ResponseWriter
  r : Request
  f : Producer σ

/-- One call of `Response` at the time `now` (every reading of the clock is
`now`), on a cache and a state of the producer: the cache and the state after
the call. -/
def Call.run {σ : Type} (lib : Lib) (now : Time) (call : Call σ) (cs : ResponseCache × σ) :
    ResponseCache × σ :=
  let out := cs.1.Response lib (fun _ => now) call.order call.key call.ttl call.w call.r
    call.f cs.2
  (out.cache, out.state)

/-- Successive calls of `Response`, all at the time `now`. -/
def runCalls {σ : Type} (lib : Lib) (now : Time) :
    List (Call σ) → ResponseCache × σ → ResponseCache × σ
  | [], cs => cs
  | call :: rest, cs => runCalls lib now rest (call.run lib now cs)

/-- The calls are write-path calls made while few entries are valid: at each
call, `range` yields the bindings of the map of that moment in some order,
fewer than `bound` entries of that map are valid at `now`, and the entry
stored under the key of the call, if any, is not valid at `now`. -/
def Admissible {σ : Type} (lib : Lib) (now : Time) (bound : Nat) :
    List (Call σ) → ResponseCache × σ → Prop
  | [], _ => True
  | call :: rest, cs =>
    call.order.Perm cs.1.cached ∧ validCount now cs.1.cached < bound ∧
      (GoMap.get cs.1.cached call.key).all (fun e => !e.valid now) = true ∧
      Admissible lib now bound rest (call.run lib now cs)

/-- The room the scans of successive calls at `now` have for expired entries:
at each call, 100 less the number of entries of the map that are valid. -/
def scanRoom {σ : Type} (lib : Lib) (now : Time) :
    List (Call σ) → ResponseCache × σ → Nat
  | [], _ => 0
  | call :: rest, cs =>
    (maxVisitedCacheEntries - validCount now cs.1.cached) +
      scanRoom lib now rest (call.run lib now cs)

/-- The instant 2012-01-01 00:00:00.5 UTC. -/
def halfPast : Time := 1325376000500000000

/-- A call for the new key `/n` followed by `j` in decimal, with a ttl of two
hours, in which `range` yields the entries in the given order. -/
def smallCall (order : List (Str × cacheEntry)) (j : Nat) : Call Nat :=
  { key := "/n".toList ++ Nat.toDigits 10 j, ttl := twoHours, order := order, w := emptyWriter,
    r := requestWith [], f := writeBody 200 (asBytes "hi") }

/-- The cache `smallStaleCache` with a producer that has not run yet. -/
def smallState0 : ResponseCache × Nat := (smallStaleCache, 0)

/-- The cache and the producer after a first call, at `halfPast`. -/
def smallState1 : ResponseCache × Nat :=
  (smallCall smallState0.1.cached 0).run stdlib halfPast smallState0

/-- The cache and the producer after a second call, at `halfPast`. -/
def smallState2 : ResponseCache × Nat :=
  (smallCall smallState1.1.cached 1).run stdlib halfPast smallState1

/-- Three successive calls on `smallStaleCache`, each of which has `range`
yield the entries in the order of the association list. -/
def smallCalls : List (Call Nat) :=
  [smallCall smallState0.1.cached 0, smallCall smallState1.1.cached 1,
   smallCall smallState2.1.cached 2]

/-! ## Theorems -/

/-! ### Splitting a header that is one quoted tag -/

theorem FieldsFunc.loop_no_sep (f : Char → Bool) (s w : Str)
    (h : ∀ c ∈ s, f c = false) : FieldsFunc.loop f s (some w) = [w ++ s] := by
  induction s generalizing w with
  | nil => simp [FieldsFunc.loop]
  | cons c cs ih =>
    have hc : f c = false := h c (List.mem_cons_self _ _)
    have hcs : ∀ c ∈ cs, f c = false := fun x hx => h x (List.mem_cons_of_mem _ hx)
    simp [FieldsFunc.loop, hc, ih _ hcs]

theorem FieldsFunc_no_sep (f : Char → Bool) (c : Char) (s : Str)
    (h : ∀ x ∈ c :: s, f x = false) : FieldsFunc (c :: s) f = [c :: s] := by
  have hc : f c = false := h c (List.mem_cons_self _ _)
  have hcs : ∀ x ∈ s, f x = false := fun x hx => h x (List.mem_cons_of_mem _ hx)
  simp [FieldsFunc, FieldsFunc.loop, hc, FieldsFunc.loop_no_sep f s [c] hcs]

theorem TrimSpace_quoted (t : Str) : TrimSpace ('"' :: t ++ ['"']) = '"' :: t ++ ['"'] := by
  have h1 : isSpace '"' = false := by decide
  simp [TrimSpace, List.dropWhile, h1]

theorem HasPrefix_quoted (t : Str) : HasPrefix ('"' :: t) ['"'] = true := by
  simp [HasPrefix]

theorem HasSuffix_quoted (t : Str) : HasSuffix (t ++ ['"']) ['"'] = true := by
  simp [HasSuffix]

theorem sliceStr_quoted (t : Str) :
    sliceStr ('"' :: t ++ ['"']) 1 ((('"' :: t ++ ['"']).length : Int) - 1) = some t := by
  have hlen : ((('"' :: t ++ ['"']).length : Int) - 1) = ((t.length + 1 : Nat) : Int) := by
    simp
  rw [hlen]
  simp [sliceStr]

theorem splitETags_quoted (t : Str) (weak : Bool) (actual : Str)
    (h : ∀ c ∈ t, c ≠ ',') : splitETags ('"' :: t ++ ['"']) weak actual = some [t] := by
  have hsep : ∀ x ∈ '"' :: (t ++ ['"']), (fun r : Char => r == ',') x = false := by
    intro x hx
    simp only [List.mem_cons, List.mem_append, List.mem_singleton, List.not_mem_nil,
      or_false] at hx
    rcases hx with rfl | hx | rfl
    · decide
    · simpa using h x hx
    · decide
  have hf := FieldsFunc_no_sep (fun r : Char => r == ',') '"' (t ++ ['"']) hsep
  have hne : ('"' :: t ++ ['"'] : Str) ≠ ['*'] := by
    intro hh
    have := List.head_eq_of_cons_eq hh
    exact absurd this (by decide)
  have hW : HasPrefix ('"' :: t ++ ['"']) ['W', '/', '"'] = false := by
    simp [HasPrefix, List.isPrefixOf]
  have hP : HasPrefix ('"' :: t ++ ['"']) ['"'] = true := HasPrefix_quoted _
  have hS : HasSuffix ('"' :: t ++ ['"']) ['"'] = true := by
    have := HasSuffix_quoted ('"' :: t)
    simpa using this
  unfold splitETags
  rw [if_neg hne]
  simp only [List.cons_append] at hf ⊢
  rw [hf]
  have hT := TrimSpace_quoted t
  have hsl := sliceStr_quoted t
  simp only [List.cons_append] at hT hsl hW hP hS
  simp only [splitETags.loop, hT, hW, hP, hS, hsl, Bool.and_false, Bool.false_and, Bool.and_self]
  simp

/-! ### Maps and writers -/

theorem GoMap.get_delete {κ ν : Type} [DecidableEq κ] (m : GoMap κ ν) (k k' : κ) :
    GoMap.get (GoMap.delete m k) k' = if k = k' then none else GoMap.get m k' := by
  induction m with
  | nil => simp [GoMap.delete, GoMap.get]
  | cons b rest ih =>
    obtain ⟨kb, vb⟩ := b
    by_cases hkb : kb = k
    · subst hkb
      have hd : GoMap.delete ((kb, vb) :: rest) kb = GoMap.delete rest kb := by
        simp [GoMap.delete]
      rw [hd, ih]
      by_cases hk : kb = k'
      · simp [hk]
      · simp [hk, GoMap.get]
    · have hd : GoMap.delete ((kb, vb) :: rest) k = (kb, vb) :: GoMap.delete rest k := by
        simp [GoMap.delete, hkb]
      rw [hd]
      by_cases hk : kb = k'
      · subst hk
        have : ¬ k = kb := fun h => hkb h.symm
        simp [GoMap.get, this]
      · simp only [GoMap.get, if_neg hk]
        exact ih

theorem GoMap.get_set {κ ν : Type} [DecidableEq κ] (m : GoMap κ ν) (k k' : κ) (v : ν) :
    GoMap.get (GoMap.set m k v) k' = if k = k' then some v else GoMap.get m k' := by
  by_cases hk : k = k'
  · simp [GoMap.set, GoMap.get, hk]
  · simp [GoMap.set, GoMap.get, hk, GoMap.get_delete]

theorem copyHeaders_get (src dst : Header) (k : Str) :
    GoMap.get (copyHeaders src dst) k =
      match GoMap.get src k with
      | some v => some v
      | none => GoMap.get dst k := by
  induction src with
  | nil => simp [copyHeaders, GoMap.get]
  | cons b rest ih =>
    obtain ⟨kb, vb⟩ := b
    have hc : copyHeaders ((kb, vb) :: rest) dst = GoMap.set (copyHeaders rest dst) kb vb := rfl
    rw [hc, GoMap.get_set]
    by_cases hk : kb = k
    · simp [hk, GoMap.get]
    · simp only [if_neg hk, GoMap.get]
      exact ih

@[simp] theorem statuses_WriteHeader (w : ResponseWriter) (code : Int) :
    (w.WriteHeader code).statuses = w.statuses ++ [code] := by
  simp [ResponseWriter.WriteHeader, ResponseWriter.statuses, List.filterMap_append]

@[simp] theorem bodies_WriteHeader (w : ResponseWriter) (code : Int) :
    (w.WriteHeader code).bodies = w.bodies := by
  simp [ResponseWriter.WriteHeader, ResponseWriter.bodies, List.filterMap_append]

@[simp] theorem statuses_Write (w : ResponseWriter) (b : List UInt8) :
    (w.Write b).statuses = w.statuses := by
  simp [ResponseWriter.Write, ResponseWriter.statuses, List.filterMap_append]

@[simp] theorem bodies_Write (w : ResponseWriter) (b : List UInt8) :
    (w.Write b).bodies = w.bodies ++ [b] := by
  simp [ResponseWriter.Write, ResponseWriter.bodies, List.filterMap_append]

@[simp] theorem statuses_SetHeader (w : ResponseWriter) (k v : Str) :
    (w.SetHeader k v).statuses = w.statuses := rfl

@[simp] theorem bodies_SetHeader (w : ResponseWriter) (k v : Str) :
    (w.SetHeader k v).bodies = w.bodies := rfl

@[simp] theorem calls_SetHeader (w : ResponseWriter) (k v : Str) :
    (w.SetHeader k v).calls = w.calls := rfl

/-! ### Hexadecimal tags hold no comma -/

theorem hexDigit_ne_comma (n : Nat) (h : n < 16) : hexDigit n ≠ ',' := by
  interval_cases n <;> decide

theorem hexEncode_no_comma (bs : List UInt8) : ∀ c ∈ hexEncode bs, c ≠ ',' := by
  induction bs with
  | nil => simp [hexEncode]
  | cons b rest ih =>
    intro c hc
    have hb : b.toNat < 256 := b.val.isLt
    simp only [hexEncode, List.mem_cons] at hc
    rcases hc with rfl | rfl | hc
    · exact hexDigit_ne_comma _ (by omega)
    · exact hexDigit_ne_comma _ (by omega)
    · exact ih c hc

/-! ### The entity-tag check on a header that matches -/

theorem CheckETag_of_tags (etag : Str) (weak : Bool) (w : ResponseWriter) (r : Request)
    (tags : List Str)
    (h : splitETags (r.Header.Get "If-None-Match".toList) weak etag = some tags) :
    CheckETag etag weak w r =
      if etag ∈ tags then
        ((if weak then w.SetHeader "ETag".toList (['W', '/', '"'] ++ etag ++ ['"'])
          else w.SetHeader "ETag".toList (['"'] ++ etag ++ ['"'])).WriteHeader
            StatusNotModified, some true)
      else
        (if weak then w.SetHeader "ETag".toList (['W', '/', '"'] ++ etag ++ ['"'])
          else w.SetHeader "ETag".toList (['"'] ++ etag ++ ['"']), some false) := by
  have hany : (tags.any fun tag => decide (tag = etag)) = decide (etag ∈ tags) := by
    rw [Bool.eq_iff_iff]
    simp [List.any_eq_true]
  unfold CheckETag
  simp only [h, hany]
  by_cases hm : etag ∈ tags <;> simp [hm]

theorem serve_of_match (lib : Lib) (e : cacheEntry) (w : ResponseWriter) (r : Request)
    (tags : List Str)
    (h : splitETags (r.Header.Get "If-None-Match".toList) false e.etag = some tags)
    (hm : e.etag ∈ tags) :
    (e.serve lib w r).2 = some () ∧
      (e.serve lib w r).1.statuses = w.statuses ++ [304] ∧
      (e.serve lib w r).1.bodies = w.bodies := by
  unfold cacheEntry.serve
  simp only [CheckETag_of_tags _ _ _ _ _ h, if_pos hm]
  simp [StatusNotModified, ResponseWriter.statuses, ResponseWriter.bodies,
    ResponseWriter.WriteHeader, ResponseWriter.SetHeader, List.filterMap_append]

/-! ### `splitETags` against the candidate set of the specification -/

theorem sliceStr_inner (t : Str) (lo : Nat) :
    sliceStr t lo ((t.length : Int) - 1) =
      if lo + 1 ≤ t.length then some ((t.drop lo).dropLast) else none := by
  unfold sliceStr
  by_cases h : lo + 1 ≤ t.length
  · have hc : (0 : Int) ≤ (lo : Int) ∧ (lo : Int) ≤ (t.length : Int) - 1 ∧
        (t.length : Int) - 1 ≤ (t.length : Int) := by omega
    have hn : ((t.length : Int) - 1).toNat = t.length - 1 := by omega
    rw [if_pos hc, if_pos h, hn, Int.toNat_ofNat, List.drop_take, List.dropLast_eq_take,
      List.length_drop]
    congr 2
    omega
  · have hc : ¬ ((0 : Int) ≤ (lo : Int) ∧ (lo : Int) ≤ (t.length : Int) - 1 ∧
        (t.length : Int) - 1 ≤ (t.length : Int)) := by omega
    rw [if_neg hc, if_neg h]

theorem sliceStr_three (t : Str) :
    sliceStr t 3 ((t.length : Int) - 1) =
      if 4 ≤ t.length then some ((t.drop 3).dropLast) else none := by
  have h := sliceStr_inner t 3
  simpa using h

theorem sliceStr_one (t : Str) :
    sliceStr t 1 ((t.length : Int) - 1) =
      if 2 ≤ t.length then some ((t.drop 1).dropLast) else none := by
  have h := sliceStr_inner t 1
  simpa using h

theorem HasPrefix_W_iff (t : Str) :
    HasPrefix t ['W', '/', '"'] = true ↔ t.take 3 = ['W', '/', '"'] := by
  unfold HasPrefix
  rw [List.isPrefixOf_iff_prefix, List.prefix_iff_eq_take]
  exact eq_comm

theorem HasPrefix_quote_iff (t : Str) :
    HasPrefix t ['"'] = true ↔ t.head? = some '"' := by
  cases t with
  | nil => simp [HasPrefix]
  | cons c cs =>
    simp only [HasPrefix, List.isPrefixOf, List.head?_cons, Option.some.injEq, Bool.and_true,
      beq_iff_eq]
    exact eq_comm

theorem HasSuffix_quote_iff (t : Str) :
    HasSuffix t ['"'] = true ↔ t.getLast? = some '"' := by
  unfold HasSuffix
  rw [List.isSuffixOf_iff_suffix, List.getLast?_eq_some_iff]
  constructor
  · rintro ⟨s, hs⟩; exact ⟨s, hs.symm⟩
  · rintro ⟨s, hs⟩; exact ⟨s, hs.symm⟩

theorem eq_W_of_take (t : Str) (h3 : t.take 3 = ['W', '/', '"']) (hlen : ¬ 4 ≤ t.length) :
    t = ['W', '/', '"'] := by
  rw [← h3, List.take_of_length_le (by omega)]

theorem eq_quote_of_head (t : Str) (h1 : t.head? = some '"') (hlen : ¬ 2 ≤ t.length) :
    t = ['"'] := by
  match t, h1, hlen with
  | [c], h1, _ => simpa using h1
  | c :: d :: rest, _, hlen => simp at hlen

theorem splitETags.loop_cons (weak : Bool) (field : Str) (rest tags : List Str) :
    splitETags.loop weak (field :: rest) tags =
      if panicsOn weak (TrimSpace field) then none
      else splitETags.loop weak rest (tags ++ (specElement weak (TrimSpace field)).toList) := by
  have hstep : splitETags.loop weak (field :: rest) tags =
      (if (weak && HasPrefix (TrimSpace field) ['W', '/', '"'] &&
            HasSuffix (TrimSpace field) ['"']) = true then
        match sliceStr (TrimSpace field) 3 (((TrimSpace field).length : Int) - 1) with
        | none => none
        | some x => splitETags.loop weak rest (tags ++ [x])
      else if (HasPrefix (TrimSpace field) ['"'] && HasSuffix (TrimSpace field) ['"']) = true then
        match sliceStr (TrimSpace field) 1 (((TrimSpace field).length : Int) - 1) with
        | none => none
        | some x => splitETags.loop weak rest (tags ++ [x])
      else splitETags.loop weak rest tags) := rfl
  rw [hstep]
  clear hstep
  generalize TrimSpace field = t
  simp only [Bool.and_eq_true, HasPrefix_W_iff, HasPrefix_quote_iff, HasSuffix_quote_iff,
    sliceStr_three, sliceStr_one]
  unfold panicsOn specElement
  by_cases hw : weak = true
  · by_cases h3 : t.take 3 = ['W', '/', '"']
    · by_cases hl : t.getLast? = some '"'
      · by_cases h4 : 4 ≤ t.length
        · have hb : ¬ (t = ['"'] ∨ (weak = true ∧ t = ['W', '/', '"'])) := by
            rintro (h | ⟨_, h⟩) <;> simp [h] at h4
          rw [if_neg hb]
          simp [hw, h3, hl, h4]
        · have ht := eq_W_of_take t h3 h4
          simp [hw, ht]
      · have hb : ¬ (t = ['"'] ∨ (weak = true ∧ t = ['W', '/', '"'])) := by
          rintro (h | ⟨_, h⟩) <;> simp [h] at hl
        rw [if_neg hb]
        simp [hw, h3, hl]
    · by_cases h1 : t.head? = some '"'
      · by_cases hl : t.getLast? = some '"'
        · by_cases h2 : 2 ≤ t.length
          · have hb : ¬ (t = ['"'] ∨ (weak = true ∧ t = ['W', '/', '"'])) := by
              rintro (h | ⟨_, h⟩)
              · simp [h] at h2
              · simp [h] at h3
            rw [if_neg hb]
            simp [hw, h3, hl, h1, h2]
          · have ht := eq_quote_of_head t h1 h2
            simp [hw, ht]
        · have hb : ¬ (t = ['"'] ∨ (weak = true ∧ t = ['W', '/', '"'])) := by
            rintro (h | ⟨_, h⟩) <;> simp [h] at hl
          rw [if_neg hb]
          simp [hw, h3, hl, h1]
      · have hb : ¬ (t = ['"'] ∨ (weak = true ∧ t = ['W', '/', '"'])) := by
          rintro (h | ⟨_, h⟩)
          · simp [h] at h1
          · simp [h] at h3
        rw [if_neg hb]
        simp [hw, h3, h1]
  · by_cases h1 : t.head? = some '"'
    · by_cases hl : t.getLast? = some '"'
      · by_cases h2 : 2 ≤ t.length
        · have hb : ¬ (t = ['"'] ∨ (weak = true ∧ t = ['W', '/', '"'])) := by
            rintro (h | ⟨h, _⟩)
            · simp [h] at h2
            · exact hw h
          rw [if_neg hb]
          simp [hw, hl, h1, h2]
        · have ht := eq_quote_of_head t h1 h2
          simp [hw, ht]
      · have hb : ¬ (t = ['"'] ∨ (weak = true ∧ t = ['W', '/', '"'])) := by
          rintro (h | ⟨h, _⟩)
          · simp [h] at hl
          · exact hw h
        rw [if_neg hb]
        simp [hw, hl, h1]
    · have hb : ¬ (t = ['"'] ∨ (weak = true ∧ t = ['W', '/', '"'])) := by
        rintro (h | ⟨h, _⟩)
        · simp [h] at h1
        · exact hw h
      rw [if_neg hb]
      simp [hw, h1]

theorem splitETags.loop_spec (weak : Bool) (fields tags : List Str) :
    splitETags.loop weak fields tags =
      if ∃ field ∈ fields, panicsOn weak (TrimSpace field) then none
      else some (tags ++ fields.filterMap (fun field => specElement weak (TrimSpace field))) := by
  induction fields generalizing tags with
  | nil => simp [splitETags.loop]
  | cons field rest ih =>
    rw [splitETags.loop_cons]
    by_cases hb : panicsOn weak (TrimSpace field)
    · have hex : ∃ x ∈ field :: rest, panicsOn weak (TrimSpace x) :=
        ⟨field, List.mem_cons_self _ _, hb⟩
      rw [if_pos hb, if_pos hex]
    · rw [if_neg hb, ih]
      by_cases hex : ∃ x ∈ rest, panicsOn weak (TrimSpace x)
      · have hex' : ∃ x ∈ field :: rest, panicsOn weak (TrimSpace x) := by
          obtain ⟨x, hx, hp⟩ := hex
          exact ⟨x, List.mem_cons_of_mem _ hx, hp⟩
        rw [if_pos hex, if_pos hex']
      · have hex' : ¬ ∃ x ∈ field :: rest, panicsOn weak (TrimSpace x) := by
          rintro ⟨x, hx, hp⟩
          rcases List.mem_cons.mp hx with rfl | hx
          · exact hb hp
          · exact hex ⟨x, hx, hp⟩
        rw [if_neg hex, if_neg hex']
        cases hs : specElement weak (TrimSpace field) <;> simp [List.filterMap_cons, hs]

theorem FieldsFunc.loop_eq_splitOnP (f : Char → Bool) (s : Str) :
    FieldsFunc.loop f s none = (s.splitOnP f).filter (fun x => decide (x ≠ [])) ∧
      ∀ w : Str, w ≠ [] → FieldsFunc.loop f s (some w) =
        ((s.splitOnP f).modifyHead (fun x => w ++ x)).filter (fun x => decide (x ≠ [])) := by
  induction s with
  | nil =>
    refine ⟨by simp [FieldsFunc.loop], ?_⟩
    intro w hw
    simp [FieldsFunc.loop, hw]
  | cons c cs ih =>
    obtain ⟨ih0, ih1⟩ := ih
    rw [List.splitOnP_cons]
    by_cases hc : f c = true
    · refine ⟨?_, ?_⟩
      · simp [FieldsFunc.loop, hc, ih0]
      · intro w hw
        simp [FieldsFunc.loop, hc, ih0, hw]
    · have hc' : f c = false := by simpa using hc
      refine ⟨?_, ?_⟩
      · simp only [FieldsFunc.loop, hc', Bool.false_eq_true, if_false]
        rw [ih1 [c] (by simp)]
        rfl
      · intro w hw
        simp only [FieldsFunc.loop, hc', Bool.false_eq_true, if_false]
        rw [ih1 (w ++ [c]) (by simp), List.modifyHead_modifyHead]
        congr 2
        funext x
        simp

theorem TrimSpace_nil : TrimSpace [] = [] := rfl

theorem specElement_nil (weak : Bool) : specElement weak [] = none := by
  cases weak <;> rfl

theorem filterMap_fields (weak : Bool) (header : Str) :
    (FieldsFunc header (fun r => r == ',')).filterMap
        (fun field => specElement weak (TrimSpace field)) =
      ((header.splitOn ',').map TrimSpace).filterMap (specElement weak) := by
  have h := (FieldsFunc.loop_eq_splitOnP (fun r => r == ',') header).1
  have hcomp : (specElement weak ∘ TrimSpace) = fun field => specElement weak (TrimSpace field) :=
    rfl
  unfold FieldsFunc
  rw [h, List.filterMap_map, hcomp]
  unfold List.splitOn
  generalize List.splitOnP (fun x => x == ',') header = L
  induction L with
  | nil => rfl
  | cons x xs ih =>
    by_cases hx : x = []
    · subst hx
      rw [List.filter_cons_of_neg (by simp),
        List.filterMap_cons_none (by simp [TrimSpace_nil, specElement_nil]), ih]
    · rw [List.filter_cons_of_pos (by simpa using hx)]
      simp only [List.filterMap_cons, ih]

/-- Off the panic, `splitETags` computes the candidate set of the
specification; it panics exactly when the header is not `*` and one of its
trimmed elements is a lone quote or, with weak matching, exactly `W/"`. -/
theorem splitETags_eq_spec (header : Str) (weak : Bool) (actual : Str) :
    splitETags header weak actual =
      if header ≠ ['*'] ∧ ∃ field ∈ FieldsFunc header (fun r => r == ','),
          panicsOn weak (TrimSpace field) then none
      else some (specCandidates header weak actual) := by
  unfold splitETags specCandidates
  by_cases hs : header = ['*']
  · simp [hs]
  · rw [if_neg hs, if_neg hs, splitETags.loop_spec]
    by_cases hex : ∃ field ∈ FieldsFunc header (fun r => r == ','), panicsOn weak (TrimSpace field)
    · rw [if_pos hex, if_pos ⟨hs, hex⟩]
    · rw [if_neg hex, if_neg (fun h => hex h.2), List.nil_append, filterMap_fields]

/-- Whenever `CheckETag` returns, it returns true exactly when the candidate
set of the specification contains the tag, and it writes the status 304
exactly then. -/
theorem CheckETag_refines_spec (etag : Str) (weak : Bool) (w : ResponseWriter) (r : Request)
    (h : splitETags (r.Header.Get "If-None-Match".toList) weak etag ≠ none) :
    (CheckETag etag weak w r).2 =
        some (decide (etag ∈ specCandidates (r.Header.Get "If-None-Match".toList) weak etag)) ∧
      (CheckETag etag weak w r).1.statuses = w.statuses ++
        (if etag ∈ specCandidates (r.Header.Get "If-None-Match".toList) weak etag then [304]
         else []) ∧
      (CheckETag etag weak w r).1.bodies = w.bodies := by
  have hspec := splitETags_eq_spec (r.Header.Get "If-None-Match".toList) weak etag
  by_cases hc : (r.Header.Get "If-None-Match".toList) ≠ ['*'] ∧
      ∃ field ∈ FieldsFunc (r.Header.Get "If-None-Match".toList) (fun r => r == ','),
        panicsOn weak (TrimSpace field)
  · rw [if_pos hc] at hspec
    exact absurd hspec h
  · rw [if_neg hc] at hspec
    rw [CheckETag_of_tags etag weak w r _ hspec]
    by_cases hm : etag ∈ specCandidates (r.Header.Get "If-None-Match".toList) weak etag
    · simp only [if_pos hm, decide_eq_true hm]
      cases weak <;> simp [StatusNotModified]
    · simp only [if_neg hm, decide_eq_false hm]
      cases weak <;> simp

/-! ### Claims about the entity-tag check -/

/-- C1 (evaluation at the failing input): for the tag `abc` and the header
`"abc","` the candidate set of the specification contains the tag, yet
`CheckETag` does not return true: it panics while the header is split, and no
status is written. -/
theorem CheckETag_panics_despite_matching_candidate :
    "abc".toList ∈ specCandidates (loneQuoteRequest.Header.Get "If-None-Match".toList)
        false "abc".toList ∧
      (CheckETag "abc".toList false emptyWriter loneQuoteRequest).2 = none ∧
      (CheckETag "abc".toList false emptyWriter loneQuoteRequest).1.calls = [] := by
  decide

/-- C2 (evaluation at the failing inputs): on the header `"` for both values
of weak, and on the header `W/"` when weak is true, `splitETags` panics instead
of discarding the element, and so does `CheckETag` on a request with the header
`"`. -/
theorem splitETags_panics_on_unpaired_quote :
    (∀ (weak : Bool) (actual : Str), splitETags ['"'] weak actual = none) ∧
      (∀ actual : Str, splitETags ['W', '/', '"'] true actual = none) ∧
      (∀ (etag : Str) (weak : Bool) (w : ResponseWriter),
        (CheckETag etag weak w (requestWith [("If-None-Match".toList, [['"']])])).2 = none) := by
  refine ⟨?_, ?_, ?_⟩
  · intro weak actual
    cases weak <;> rfl
  · intro actual
    rfl
  · intro etag weak w
    cases weak <;> rfl

/-- C3: when the etag of an entry is the hexadecimal digest of its body and the
`If-None-Match` header of the request is that etag between double quotes,
`serve` returns having written the status 304 and no body. -/
theorem serve_etag_round_trip (lib : Lib) (e : cacheEntry) (w : ResponseWriter) (r : Request)
    (hetag : e.etag = hexEncode (lib.sha1 e.body))
    (hreq : r.Header.Get "If-None-Match".toList = ['"'] ++ e.etag ++ ['"']) :
    (e.serve lib w r).2 = some () ∧
      (e.serve lib w r).1.statuses = w.statuses ++ [304] ∧
      (e.serve lib w r).1.bodies = w.bodies := by
  have hsplit : splitETags (r.Header.Get "If-None-Match".toList) false e.etag = some [e.etag] := by
    rw [hreq]
    have hc : ∀ c ∈ e.etag, c ≠ ',' := by
      rw [hetag]
      exact hexEncode_no_comma _
    simpa using splitETags_quoted e.etag false e.etag hc
  exact serve_of_match lib e w r [e.etag] hsplit (List.mem_singleton_self _)

set_option maxRecDepth 100000 in
/-- Witness of C3 on the entry that holds the body `hi`. -/
theorem serve_etag_round_trip_witness :
    hiEntry.etag = hexEncode (stdlib.sha1 hiEntry.body) ∧
      hiRequest.Header.Get "If-None-Match".toList = ['"'] ++ hiEntry.etag ++ ['"'] ∧
      (hiEntry.serve stdlib emptyWriter hiRequest).2 = some () ∧
      (hiEntry.serve stdlib emptyWriter hiRequest).1.statuses = emptyWriter.statuses ++ [304] ∧
      (hiEntry.serve stdlib emptyWriter hiRequest).1.bodies = emptyWriter.bodies :=
  ⟨rfl, by decide,
    serve_etag_round_trip stdlib hiEntry emptyWriter hiRequest rfl (by decide)⟩

/-- C4: when the `If-None-Match` header of the request is exactly `*`,
`CheckETag` returns true and writes 304 for every tag and both values of weak,
and `serve` returns having written the status 304 and no body, whatever the
entry. -/
theorem wildcard_always_matches (lib : Lib) (e : cacheEntry) (w : ResponseWriter) (r : Request)
    (hreq : r.Header.Get "If-None-Match".toList = ['*']) :
    (∀ (tag : Str) (weak : Bool) (w' : ResponseWriter),
        (CheckETag tag weak w' r).2 = some true ∧
        (CheckETag tag weak w' r).1.statuses = w'.statuses ++ [304] ∧
        (CheckETag tag weak w' r).1.bodies = w'.bodies) ∧
      (e.serve lib w r).2 = some () ∧
      (e.serve lib w r).1.statuses = w.statuses ++ [304] ∧
      (e.serve lib w r).1.bodies = w.bodies := by
  have hsplit : ∀ (tag : Str) (weak : Bool),
      splitETags (r.Header.Get "If-None-Match".toList) weak tag = some [tag] := by
    intro tag weak
    rw [hreq]
    simp [splitETags]
  refine ⟨?_, serve_of_match lib e w r [e.etag] (hsplit _ _) (List.mem_singleton_self _)⟩
  intro tag weak w'
  rw [CheckETag_of_tags tag weak w' r [tag] (hsplit tag weak)]
  cases weak <;> simp [StatusNotModified]

/-- Witness of C4 on the entry that holds the body `hi`. -/
theorem wildcard_always_matches_witness :
    starRequest.Header.Get "If-None-Match".toList = ['*'] ∧
      (∀ (tag : Str) (weak : Bool) (w' : ResponseWriter),
        (CheckETag tag weak w' starRequest).2 = some true ∧
        (CheckETag tag weak w' starRequest).1.statuses = w'.statuses ++ [304] ∧
        (CheckETag tag weak w' starRequest).1.bodies = w'.bodies) ∧
      (hiEntry.serve stdlib emptyWriter starRequest).2 = some () ∧
      (hiEntry.serve stdlib emptyWriter starRequest).1.statuses = emptyWriter.statuses ++ [304] ∧
      (hiEntry.serve stdlib emptyWriter starRequest).1.bodies = emptyWriter.bodies :=
  ⟨by decide, wildcard_always_matches stdlib hiEntry emptyWriter starRequest (by decide)⟩

/-! ### Claims about the last-modified check -/

theorem Header.Get_Set (h : Header) (key value : Str) :
    Header.Get (Header.Set h key value) key = value := by
  simp [Header.Get, Header.Set, GoMap.get_set]

set_option maxRecDepth 100000 in
/-- C5 (evaluation at the failing input): an entry is made by the cache at
2012-01-01 00:00:00.5 UTC and served with `Last-Modified: Sun, 01 Jan 2012
00:00:00 GMT`; a request one second later that sends this value back as
`If-Modified-Since` is served from the cache (the producer is not run again)
with the status 200 and the whole body, not with 304. -/
theorem echoed_last_modified_gets_full_response :
    firstCall.w.header.Get "Last-Modified".toList = "Sun, 01 Jan 2012 00:00:00 GMT".toList ∧
      echoRequest.Header.Get "If-Modified-Since".toList =
        firstCall.w.header.Get "Last-Modified".toList ∧
      GoMap.get firstCall.cache.cached "/a".toList = some hiEntry ∧
      secondCall.state = firstCall.state ∧
      secondCall.returned = true ∧
      secondCall.w.statuses = [200] ∧
      secondCall.w.bodies = [asBytes "hi"] := by
  decide

/-- C6: `CheckLastModified` returns false exactly when the `If-Modified-Since`
header does not parse or `lastModified` is strictly after the parsed time; it
writes the status 304 when it returns true and nothing when it returns false;
in both cases the `Last-Modified` header of the response is the rendering of
`lastModified`. -/
theorem CheckLastModified_spec (lib : Lib) (lastModified : Time) (w : ResponseWriter)
    (r : Request) :
    ((CheckLastModified lib lastModified w r).2 = false ↔
        (lib.parseTime (r.Header.Get "If-Modified-Since".toList) = none ∨
          ∃ t, lib.parseTime (r.Header.Get "If-Modified-Since".toList) = some t ∧
            t < lastModified)) ∧
      (CheckLastModified lib lastModified w r).1.header =
        Header.Set w.header "Last-Modified".toList (lib.formatTime lastModified) ∧
      (CheckLastModified lib lastModified w r).1.header.Get "Last-Modified".toList =
        lib.formatTime lastModified ∧
      (CheckLastModified lib lastModified w r).1.calls =
        (if (CheckLastModified lib lastModified w r).2 then
          w.calls ++ [WriteEvent.status 304
            (Header.Set w.header "Last-Modified".toList (lib.formatTime lastModified))]
        else w.calls) := by
  unfold CheckLastModified
  cases hp : lib.parseTime (r.Header.Get "If-Modified-Since".toList) with
  | none => simp [ResponseWriter.SetHeader, Header.Get_Set]
  | some t =>
    by_cases hlt : lastModified > t
    · have hlt' : t < lastModified := hlt
      simp [hlt, hlt', ResponseWriter.SetHeader, Header.Get_Set]
    · have hlt' : ¬ t < lastModified := hlt
      simp [hlt, hlt', ResponseWriter.SetHeader, ResponseWriter.WriteHeader, Header.Get_Set,
        StatusNotModified]

/-! ### Claims about `serve` -/

theorem CheckETag_ret_indep (etag : Str) (weak : Bool) (w w' : ResponseWriter) (r : Request) :
    (CheckETag etag weak w r).2 = (CheckETag etag weak w' r).2 := by
  unfold CheckETag
  cases splitETags (r.Header.Get "If-None-Match".toList) weak etag with
  | none => rfl
  | some tags =>
    by_cases hm : (tags.any fun tag => decide (tag = etag)) = true <;> simp [hm]

theorem CheckLastModified_ret_indep (lib : Lib) (t : Time) (w w' : ResponseWriter)
    (r : Request) :
    (CheckLastModified lib t w r).2 = (CheckLastModified lib t w' r).2 := by
  unfold CheckLastModified
  cases lib.parseTime (r.Header.Get "If-Modified-Since".toList) with
  | none => rfl
  | some t' =>
    by_cases hlt : t > t' <;> simp [hlt]

theorem canonical_ETag : CanonicalMIMEHeaderKey "ETag".toList = "Etag".toList := by decide

theorem canonical_Last_Modified :
    CanonicalMIMEHeaderKey "Last-Modified".toList = "Last-Modified".toList := by decide

set_option maxRecDepth 100000 in
/-- C7 (counterexample): the producer of `taggedEntry` set the header
`ETag: v1`, which is among the captured headers of the entry; when the entry is
served in full (status 200, body `hi`), the header map in force at the status
write carries the quoted digest under that name, not the captured `v1`. -/
theorem serve_overwrites_captured_ETag :
    GoMap.get taggedEntry.headers "Etag".toList = some ["v1".toList] ∧
      (taggedEntry.serve stdlib emptyWriter (requestWith [])).1.statuses = [200] ∧
      (taggedEntry.serve stdlib emptyWriter (requestWith [])).1.bodies = [asBytes "hi"] ∧
      (taggedEntry.serve stdlib emptyWriter (requestWith [])).1.sent.map
          (fun hs => GoMap.get hs "Etag".toList) =
        [some ["\"c22b5f9178342609428d6f51b2c5af4c0bde6a42\"".toList]] := by
  decide

/-- C7 (amended): when splitting the `If-None-Match` header does not panic,
`serve` returns having made exactly one status write: 304 and no body when the
non-weak entity-tag check on the etag of the entry matches or, failing that,
the last-modified check on its start matches; otherwise the captured status
code followed by the captured body.  The header map in force at that write
holds every captured header other than `ETag` and `Last-Modified` with its
captured value, and the quoted etag as `ETag`. -/
theorem serve_writes_one_status (lib : Lib) (e : cacheEntry) (w : ResponseWriter)
    (r : Request)
    (hsplit : splitETags (r.Header.Get "If-None-Match".toList) false e.etag ≠ none) :
    (e.serve lib w r).2 = some () ∧
      (e.serve lib w r).1.calls = w.calls ++
        (if (CheckETag e.etag false w r).2 = some true ∨
            (CheckLastModified lib e.start w r).2 = true then
          [WriteEvent.status 304 (e.serve lib w r).1.header]
        else
          [WriteEvent.status e.code (e.serve lib w r).1.header, WriteEvent.body e.body]) ∧
      (∀ (k : Str) (v : List Str), GoMap.get e.headers k = some v →
        k ≠ "Etag".toList → k ≠ "Last-Modified".toList →
        GoMap.get (e.serve lib w r).1.header k = some v) ∧
      GoMap.get (e.serve lib w r).1.header "Etag".toList = some [['"'] ++ e.etag ++ ['"']] := by
  obtain ⟨tags, htags⟩ := Option.ne_none_iff_exists'.mp hsplit
  have hE := CheckETag_of_tags e.etag false w r tags htags
  have hE0 := CheckETag_of_tags e.etag false
    { w with header := copyHeaders e.headers w.header } r tags htags
  have hkey : ∀ (k : Str) (v : List Str) (x : Str) (m : Header),
      GoMap.get e.headers k = some v → k ≠ "Etag".toList →
      GoMap.get (Header.Set (copyHeaders e.headers m) "ETag".toList x) k = some v := by
    intro k v x m hk hne
    have hne' : ¬ "Etag".toList = k := fun h => hne h.symm
    rw [Header.Set, canonical_ETag, GoMap.get_set, if_neg hne', copyHeaders_get, hk]
  have hkey2 : ∀ (k : Str) (v : List Str) (x y : Str) (m : Header),
      GoMap.get e.headers k = some v → k ≠ "Etag".toList → k ≠ "Last-Modified".toList →
      GoMap.get (Header.Set (Header.Set (copyHeaders e.headers m) "ETag".toList x)
        "Last-Modified".toList y) k = some v := by
    intro k v x y m hk hne hne2
    have hne' : ¬ "Last-Modified".toList = k := fun h => hne2 h.symm
    rw [Header.Set, canonical_Last_Modified, GoMap.get_set, if_neg hne']
    exact hkey k v x m hk hne
  have htag : ∀ (x : Str) (m : Header),
      GoMap.get (Header.Set m "ETag".toList x) "Etag".toList = some [x] := by
    intro x m
    rw [Header.Set, canonical_ETag, GoMap.get_set, if_pos rfl]
  have htag2 : ∀ (x y : Str) (m : Header),
      GoMap.get (Header.Set (Header.Set m "ETag".toList x) "Last-Modified".toList y)
        "Etag".toList = some [x] := by
    intro x y m
    have hne' : ¬ "Last-Modified".toList = "Etag".toList := by decide
    rw [Header.Set, canonical_Last_Modified, GoMap.get_set, if_neg hne']
    exact htag x m
  by_cases hm : e.etag ∈ tags
  · rw [if_pos hm] at hE hE0
    have hret : (CheckETag e.etag false w r).2 = some true := by rw [hE]
    unfold cacheEntry.serve
    simp only [hE0, hret, true_or, if_true]
    refine ⟨trivial, ?_, ?_, ?_⟩
    · simp [ResponseWriter.WriteHeader, ResponseWriter.SetHeader, StatusNotModified]
    · intro k v hk hne _
      simpa [ResponseWriter.WriteHeader, ResponseWriter.SetHeader] using hkey k v _ _ hk hne
    · simpa [ResponseWriter.WriteHeader, ResponseWriter.SetHeader] using htag _ _
  · rw [if_neg hm] at hE hE0
    have hret : (CheckETag e.etag false w r).2 ≠ some true := by rw [hE]; simp
    have hL := CheckLastModified_ret_indep lib e.start w
      (ResponseWriter.SetHeader { w with header := copyHeaders e.headers w.header }
        "ETag".toList (['"'] ++ e.etag ++ ['"'])) r
    unfold cacheEntry.serve
    simp only [hE0, hret, false_or]
    rw [hL]
    unfold CheckLastModified
    cases hp : lib.parseTime (r.Header.Get "If-Modified-Since".toList) with
    | none =>
      refine ⟨rfl, ?_, ?_, ?_⟩
      · simp [ResponseWriter.WriteHeader, ResponseWriter.Write, ResponseWriter.SetHeader]
      · intro k v hk hne hne2
        simpa [ResponseWriter.WriteHeader, ResponseWriter.Write, ResponseWriter.SetHeader]
          using hkey2 k v _ _ _ hk hne hne2
      · simpa [ResponseWriter.WriteHeader, ResponseWriter.Write, ResponseWriter.SetHeader]
          using htag2 _ _ _
    | some t =>
      by_cases hlt : e.start > t
      · simp only [hlt, if_true]
        refine ⟨trivial, ?_, ?_, ?_⟩
        · simp [ResponseWriter.WriteHeader, ResponseWriter.Write, ResponseWriter.SetHeader]
        · intro k v hk hne hne2
          simpa [ResponseWriter.WriteHeader, ResponseWriter.Write, ResponseWriter.SetHeader]
            using hkey2 k v _ _ _ hk hne hne2
        · simpa [ResponseWriter.WriteHeader, ResponseWriter.Write, ResponseWriter.SetHeader]
            using htag2 _ _ _
      · simp only [hlt, if_false]
        refine ⟨trivial, ?_, ?_, ?_⟩
        · simp [ResponseWriter.WriteHeader, ResponseWriter.SetHeader, StatusNotModified]
        · intro k v hk hne hne2
          simpa [ResponseWriter.WriteHeader, ResponseWriter.Write, ResponseWriter.SetHeader]
            using hkey2 k v _ _ _ hk hne hne2
        · simpa [ResponseWriter.WriteHeader, ResponseWriter.Write, ResponseWriter.SetHeader]
            using htag2 _ _ _

/-- Witness of C7 (amended) on `taggedEntry` and a request without conditional
headers. -/
theorem serve_writes_one_status_witness :
    splitETags ((requestWith []).Header.Get "If-None-Match".toList) false taggedEntry.etag
        ≠ none ∧
      ((taggedEntry.serve stdlib emptyWriter (requestWith [])).2 = some () ∧
      (taggedEntry.serve stdlib emptyWriter (requestWith [])).1.calls = emptyWriter.calls ++
        (if (CheckETag taggedEntry.etag false emptyWriter (requestWith [])).2 = some true ∨
            (CheckLastModified stdlib taggedEntry.start emptyWriter (requestWith [])).2 = true
          then
            [WriteEvent.status 304
              (taggedEntry.serve stdlib emptyWriter (requestWith [])).1.header]
          else
            [WriteEvent.status taggedEntry.code
              (taggedEntry.serve stdlib emptyWriter (requestWith [])).1.header,
             WriteEvent.body taggedEntry.body]) ∧
      (∀ (k : Str) (v : List Str), GoMap.get taggedEntry.headers k = some v →
        k ≠ "Etag".toList → k ≠ "Last-Modified".toList →
        GoMap.get (taggedEntry.serve stdlib emptyWriter (requestWith [])).1.header k = some v) ∧
      GoMap.get (taggedEntry.serve stdlib emptyWriter (requestWith [])).1.header "Etag".toList =
        some [['"'] ++ taggedEntry.etag ++ ['"']]) :=
  ⟨by decide, serve_writes_one_status stdlib taggedEntry emptyWriter (requestWith []) (by decide)⟩

/-! ### Claims about `Response` -/

theorem serve_congr_header (lib : Lib) (e : cacheEntry) (w : ResponseWriter) (r r' : Request)
    (h : r'.Header = r.Header) : e.serve lib w r' = e.serve lib w r := by
  unfold cacheEntry.serve CheckETag CheckLastModified
  simp only [h]

theorem lookupValid_of_valid (c : ResponseCache) (clk : Clock) (k : Str) (e : cacheEntry)
    (hget : GoMap.get c.cached k = some e) (hvalid : clk.now < e.end) :
    c.lookupValid clk k = (some e, clk.tail) := by
  have hv : e.valid clk.now = true := by
    simp only [cacheEntry.valid, decide_eq_true_eq]
    exact sub_neg.mpr hvalid
  simp [ResponseCache.lookupValid, hget, hv]

theorem lookupValid_of_expired (c : ResponseCache) (clk : Clock) (k : Str)
    (hexp : ∀ e, GoMap.get c.cached k = some e → e.end ≤ clk.now) :
    (c.lookupValid clk k).1 = none ∧
      ((c.lookupValid clk k).2 = clk ∨ (c.lookupValid clk k).2 = clk.tail) := by
  unfold ResponseCache.lookupValid
  cases hget : GoMap.get c.cached k with
  | none => simp
  | some e =>
    have hv : e.valid clk.now = false := by
      have hle := hexp e hget
      simp only [cacheEntry.valid, decide_eq_false_iff_not, sub_neg]
      exact not_lt.mpr hle
    simp [hv]

theorem lookupValid_some (c : ResponseCache) (clk : Clock) (k : Str) (e : cacheEntry)
    (h : (c.lookupValid clk k).1 = some e) :
    GoMap.get c.cached k = some e ∧ clk.now < e.end := by
  unfold ResponseCache.lookupValid at h
  cases hget : GoMap.get c.cached k with
  | none => simp [hget] at h
  | some e' =>
    rw [hget] at h
    by_cases hv : e'.valid clk.now = true
    · simp only [hv, if_true] at h
      have he : e' = e := by simpa using h
      subst he
      refine ⟨rfl, ?_⟩
      simp only [cacheEntry.valid, decide_eq_true_eq] at hv
      exact sub_neg.mp hv
    · simp [hv] at h

/-- C8: when the map holds an entry under `k` and the clock reads a time
strictly before its end, `Response` for `k` leaves the cache and the state of
the producer as they were (the producer is not run) and its effect on the
writer is that of `serve` on the stored entry; any other such call, whatever
its duration, producer and iteration order, with a request that carries the
same headers leaves the same writer. -/
theorem Response_serves_valid_entry {σ : Type} (lib : Lib) (c : ResponseCache) (clk : Clock)
    (order : List (Str × cacheEntry)) (k : Str) (d : Duration) (w : ResponseWriter)
    (r : Request) (f : Producer σ) (s : σ) (e : cacheEntry)
    (hget : GoMap.get c.cached k = some e) (hvalid : clk.now < e.end) :
    (c.Response lib clk order k d w r f s).cache = c ∧
      (c.Response lib clk order k d w r f s).state = s ∧
      (c.Response lib clk order k d w r f s).w = (e.serve lib w r).1 ∧
      (c.Response lib clk order k d w r f s).returned = (e.serve lib w r).2.isSome ∧
      (∀ (clk' : Clock) (order' : List (Str × cacheEntry)) (d' : Duration) (r' : Request)
          (f' : Producer σ) (s' : σ), clk'.now < e.end → r'.Header = r.Header →
        (c.Response lib clk' order' k d' w r' f' s').w =
          (c.Response lib clk order k d w r f s).w) := by
  have hfast : ∀ (clk' : Clock) (order' : List (Str × cacheEntry)) (d' : Duration)
      (r' : Request) (f' : Producer σ) (s' : σ), clk'.now < e.end →
      c.Response lib clk' order' k d' w r' f' s' =
        { cache := c, state := s', w := (e.serve lib w r').1, clock := clk'.tail,
          returned := (e.serve lib w r').2.isSome } := by
    intro clk' order' d' r' f' s' hv
    unfold ResponseCache.Response
    rw [lookupValid_of_valid c clk' k e hget hv]
  rw [hfast clk order d r f s hvalid]
  refine ⟨rfl, rfl, rfl, rfl, ?_⟩
  intro clk' order' d' r' f' s' hv hh
  rw [hfast clk' order' d' r' f' s' hv, serve_congr_header lib e w r r' hh]

set_option maxRecDepth 100000 in
/-- Witness of C8: `hiEntry` is stored under `/a` and the clock reads a time
before its end. -/
theorem Response_serves_valid_entry_witness :
    GoMap.get hiCache.cached "/a".toList = some hiEntry ∧
      laterClock.now < hiEntry.end ∧
      ((hiCache.Response stdlib laterClock [] "/a".toList twoHours emptyWriter hiRequest
          (writeBody 500 []) 7).cache = hiCache ∧
      (hiCache.Response stdlib laterClock [] "/a".toList twoHours emptyWriter hiRequest
          (writeBody 500 []) 7).state = 7 ∧
      (hiCache.Response stdlib laterClock [] "/a".toList twoHours emptyWriter hiRequest
          (writeBody 500 []) 7).w = (hiEntry.serve stdlib emptyWriter hiRequest).1 ∧
      (hiCache.Response stdlib laterClock [] "/a".toList twoHours emptyWriter hiRequest
          (writeBody 500 []) 7).returned = (hiEntry.serve stdlib emptyWriter hiRequest).2.isSome ∧
      (∀ (clk' : Clock) (order' : List (Str × cacheEntry)) (d' : Duration) (r' : Request)
          (f' : Producer Nat) (s' : Nat), clk'.now < hiEntry.end →
          r'.Header = hiRequest.Header →
        (hiCache.Response stdlib clk' order' "/a".toList d' emptyWriter r' f' s').w =
          (hiCache.Response stdlib laterClock [] "/a".toList twoHours emptyWriter hiRequest
            (writeBody 500 []) 7).w)) :=
  ⟨by decide, by decide,
    Response_serves_valid_entry stdlib hiCache laterClock [] "/a".toList twoHours emptyWriter
      hiRequest (writeBody 500 []) 7 hiEntry (by decide) (by decide)⟩

theorem writePath_builds_and_serves {σ : Type} (lib : Lib) (c : ResponseCache) (clk : Clock)
    (order : List (Str × cacheEntry)) (k : Str) (d : Duration) (w : ResponseWriter)
    (r : Request) (f : Producer σ) (s : σ) :
    ∃ (t0 t1 : Time) (e' : cacheEntry),
      e' = (cacheEntry.cache lib
        { start := t0, «end» := t1 + d, code := 0, etag := [], headers := [], body := [] }
        f s).1 ∧
      (c.writePath lib clk order k d w r f s).state = (f s NewRecorder).1 ∧
      GoMap.get (c.writePath lib clk order k d w r f s).cache.cached k = some e' ∧
      e'.code = (f s NewRecorder).2.Code ∧
      e'.body = (f s NewRecorder).2.Body ∧
      (c.writePath lib clk order k d w r f s).w = (e'.serve lib w r).1 ∧
      (c.writePath lib clk order k d w r f s).returned = (e'.serve lib w r).2.isSome := by
  refine ⟨(evictLoop order 0 c.cached clk).2.now, (evictLoop order 0 c.cached clk).2.tail.now,
    _, rfl, rfl, ?_, rfl, rfl, rfl, rfl⟩
  simp [ResponseCache.writePath, GoMap.get_set]

/-- C9: when every reading of the clock during the call is at or after the end
of the entry stored under `k` (or no entry is stored under `k`), `Response`
runs the producer exactly once (the state of the producer is the one a single
run leaves), the map then holds under `k` a new entry built from that run,
with the status and the body the run wrote, and the effect on the writer is
that of `serve` on this new entry; and a look-up hands out a stored entry for
service only when the clock reads a time strictly before its end. -/
theorem Response_regenerates_expired {σ : Type} (lib : Lib) (c : ResponseCache) (clk : Clock)
    (order : List (Str × cacheEntry)) (k : Str) (d : Duration) (w : ResponseWriter)
    (r : Request) (f : Producer σ) (s : σ)
    (hexp : ∀ e, GoMap.get c.cached k = some e → ∀ i, e.end ≤ clk i) :
    (∃ (t0 t1 : Time) (e' : cacheEntry),
      e' = (cacheEntry.cache lib
        { start := t0, «end» := t1 + d, code := 0, etag := [], headers := [], body := [] }
        f s).1 ∧
      (c.Response lib clk order k d w r f s).state = (f s NewRecorder).1 ∧
      GoMap.get (c.Response lib clk order k d w r f s).cache.cached k = some e' ∧
      e'.code = (f s NewRecorder).2.Code ∧
      e'.body = (f s NewRecorder).2.Body ∧
      (c.Response lib clk order k d w r f s).w = (e'.serve lib w r).1 ∧
      (c.Response lib clk order k d w r f s).returned = (e'.serve lib w r).2.isSome) ∧
      (∀ (clk' : Clock) (e : cacheEntry), (c.lookupValid clk' k).1 = some e →
        GoMap.get c.cached k = some e ∧ clk'.now < e.end) := by
  refine ⟨?_, fun clk' e h => lookupValid_some c clk' k e h⟩
  obtain ⟨h1, h1c⟩ := lookupValid_of_expired c clk k (fun e he => hexp e he 0)
  have hstep : ∀ clk1 : Clock, (∀ e, GoMap.get c.cached k = some e → e.end ≤ clk1.now) →
      ∃ clk2, (match c.lookupValid clk1 k with
        | (some cached, clk2) =>
          ({ cache := c, state := s, w := (cacheEntry.serve lib cached w r).1, clock := clk2,
             returned := (cacheEntry.serve lib cached w r).2.isSome } : Outcome σ)
        | (none, clk2) => c.writePath lib clk2 order k d w r f s) =
        c.writePath lib clk2 order k d w r f s := by
    intro clk1 h
    obtain ⟨h2, _⟩ := lookupValid_of_expired c clk1 k h
    refine ⟨(c.lookupValid clk1 k).2, ?_⟩
    have hp : c.lookupValid clk1 k = (none, (c.lookupValid clk1 k).2) := Prod.ext h2 rfl
    rw [hp]
  have hresp : ∃ clk2, c.Response lib clk order k d w r f s =
      c.writePath lib clk2 order k d w r f s := by
    have hp : c.lookupValid clk k = (none, (c.lookupValid clk k).2) := Prod.ext h1 rfl
    unfold ResponseCache.Response
    rw [hp]
    apply hstep
    intro e he
    rcases h1c with h | h
    · rw [h]; exact hexp e he 0
    · rw [h]; exact hexp e he 1
  obtain ⟨clk2, hclk2⟩ := hresp
  rw [hclk2]
  exact writePath_builds_and_serves lib c clk2 order k d w r f s

set_option maxRecDepth 100000 in
/-- Witness of C9: `hiEntry` is stored under `/a` and the clock reads a time
after its end. -/
theorem Response_regenerates_expired_witness :
    (∀ e, GoMap.get hiCache.cached "/a".toList = some e → ∀ i, e.end ≤ threeOClock i) ∧
    ((∃ (t0 t1 : Time) (e' : cacheEntry),
      e' = (cacheEntry.cache stdlib
        { start := t0, «end» := t1 + twoHours, code := 0, etag := [], headers := [],
          body := [] }
        (writeBody 200 (asBytes "ho")) 7).1 ∧
      (hiCache.Response stdlib threeOClock hiCache.cached "/a".toList twoHours emptyWriter
        hiRequest (writeBody 200 (asBytes "ho")) 7).state =
          (writeBody 200 (asBytes "ho") 7 NewRecorder).1 ∧
      GoMap.get (hiCache.Response stdlib threeOClock hiCache.cached "/a".toList twoHours
        emptyWriter hiRequest (writeBody 200 (asBytes "ho")) 7).cache.cached "/a".toList =
          some e' ∧
      e'.code = (writeBody 200 (asBytes "ho") 7 NewRecorder).2.Code ∧
      e'.body = (writeBody 200 (asBytes "ho") 7 NewRecorder).2.Body ∧
      (hiCache.Response stdlib threeOClock hiCache.cached "/a".toList twoHours emptyWriter
        hiRequest (writeBody 200 (asBytes "ho")) 7).w = (e'.serve stdlib emptyWriter hiRequest).1 ∧
      (hiCache.Response stdlib threeOClock hiCache.cached "/a".toList twoHours emptyWriter
        hiRequest (writeBody 200 (asBytes "ho")) 7).returned =
          (e'.serve stdlib emptyWriter hiRequest).2.isSome) ∧
      (∀ (clk' : Clock) (e : cacheEntry), (hiCache.lookupValid clk' "/a".toList).1 = some e →
        GoMap.get hiCache.cached "/a".toList = some e ∧ clk'.now < e.end)) :=
  have hexp : ∀ e, GoMap.get hiCache.cached "/a".toList = some e → ∀ i, e.end ≤ threeOClock i :=
    fun e he _ => by
      have h0 : GoMap.get hiCache.cached "/a".toList = some hiEntry := by decide
      have he' : hiEntry = e := Option.some.inj (h0.symm.trans he)
      subst he'
      have hend : hiEntry.end ≤ threeOClock 0 := by decide
      exact hend
  ⟨hexp, Response_regenerates_expired stdlib hiCache threeOClock hiCache.cached "/a".toList
    twoHours emptyWriter hiRequest (writeBody 200 (asBytes "ho")) 7 hexp⟩

theorem evictLoop_take (order : List (Str × cacheEntry)) (visited : Nat)
    (m : GoMap Str cacheEntry) (clk : Clock) :
    evictLoop order visited m clk =
      evictLoop (order.take (maxVisitedCacheEntries + 1 - visited)) visited m clk := by
  induction order generalizing visited m clk with
  | nil => simp [evictLoop]
  | cons b rest ih =>
    obtain ⟨p, e⟩ := b
    by_cases hv : visited > maxVisitedCacheEntries
    · have h0 : maxVisitedCacheEntries + 1 - visited = 0 := by omega
      simp [evictLoop, hv, h0]
    · have h1 : maxVisitedCacheEntries + 1 - visited =
          (maxVisitedCacheEntries + 1 - (visited + 1)) + 1 := by omega
      rw [h1, List.take_succ_cons]
      simp only [evictLoop, if_neg hv]
      exact ih _ _ _

set_option maxRecDepth 100000 in
/-- C10 (evaluation at the failing input): on a cache that holds 102 entries,
all of them expired, a single write-path call of `Response` for a new key
removes 101 of them, one more than the cap of 100: of the old keys only `101`
is left beside the new one. -/
theorem eviction_scan_removes_101 :
    (expiredCache 102).cached.length = 102 ∧
      (expiredCache 102).cached.all (fun b => !b.2.valid halfPastClock.now) = true ∧
      crowdedCall.state = 1 ∧
      crowdedCall.cache.cached.map Prod.fst = ["/new".toList, "101".toList] := by
  decide

/-! ### Claims about `cache` and the headers of the response -/

/-- C11: after `cache`, the status and the body of the entry are those the
producer left in the recorder, the `Content-Length` header is the single value
that writes the length of the body in decimal, the `Expires` header is the
single value that renders the end of the entry, every other header is as the
producer left it, and the producer ran once. -/
theorem cache_populates {σ : Type} (lib : Lib) (e : cacheEntry) (f : Producer σ) (s : σ) :
    (cacheEntry.cache lib e f s).1.code = (f s NewRecorder).2.Code ∧
      (cacheEntry.cache lib e f s).1.body = (f s NewRecorder).2.Body ∧
      GoMap.get (cacheEntry.cache lib e f s).1.headers "Content-Length".toList =
        some [(Nat.repr (f s NewRecorder).2.Body.length).toList] ∧
      GoMap.get (cacheEntry.cache lib e f s).1.headers "Expires".toList =
        some [lib.formatTime e.end] ∧
      (∀ k : Str, k ≠ "Content-Length".toList → k ≠ "Expires".toList →
        GoMap.get (cacheEntry.cache lib e f s).1.headers k =
          GoMap.get (f s NewRecorder).2.HeaderMap k) ∧
      (cacheEntry.cache lib e f s).1.start = e.start ∧
      (cacheEntry.cache lib e f s).1.end = e.end ∧
      (cacheEntry.cache lib e f s).2 = (f s NewRecorder).1 := by
  have hCL : CanonicalMIMEHeaderKey "Content-Length".toList = "Content-Length".toList := by
    decide
  have hEx : CanonicalMIMEHeaderKey "Expires".toList = "Expires".toList := by decide
  have hne : ¬ "Content-Length".toList = "Expires".toList := by decide
  refine ⟨rfl, rfl, ?_, ?_, ?_, rfl, rfl, rfl⟩
  · simp only [cacheEntry.cache, Header.Set, hCL, GoMap.get_set, if_true]
    rfl
  · simp only [cacheEntry.cache, Header.Set, hCL, hEx, GoMap.get_set, if_neg hne, if_true]
  · intro k hk1 hk2
    have h1 : ¬ "Content-Length".toList = k := fun h => hk1 h.symm
    have h2 : ¬ "Expires".toList = k := fun h => hk2 h.symm
    simp only [cacheEntry.cache, Header.Set, hCL, hEx, GoMap.get_set, if_neg h1, if_neg h2]

set_option maxRecDepth 100000 in
/-- C12 (counterexample): in the example call the body holds seven bytes and
the `Content-Length` header of the response is `7`, not `8`. -/
theorem example_content_length_is_not_8 :
    exampleBody.length = 7 ∧
      (exampleCall halfPastClock).w.bodies = [exampleBody] ∧
      GoMap.get (exampleCall halfPastClock).w.header "Content-Length".toList =
        some ["7".toList] ∧
      GoMap.get (exampleCall halfPastClock).w.header "Content-Length".toList ≠
        some ["8".toList] := by
  decide

set_option maxRecDepth 100000 in
/-- C12 (amended): whatever the clock reads, the example call answers with the
status 200 and the seven bytes of the body, and the response carries the quoted
SHA-1 digest of the body as `ETag`, the rendering of the first clock reading as
`Last-Modified`, the rendering of the second reading plus two hours as
`Expires`, and `7` as `Content-Length`. -/
theorem example_call_response (clk : Clock) :
    (exampleCall clk).returned = true ∧
      (exampleCall clk).state = 1 ∧
      (exampleCall clk).w.statuses = [200] ∧
      (exampleCall clk).w.bodies = [exampleBody] ∧
      (exampleCall clk).w.header.Get "ETag".toList =
        "\"8724fc2165f042facbd9194627e4748bb7571b27\"".toList ∧
      (exampleCall clk).w.header.Get "Last-Modified".toList = formatHTTPDate (clk 0) ∧
      (exampleCall clk).w.header.Get "Expires".toList = formatHTTPDate (clk 1 + twoHours) ∧
      (exampleCall clk).w.header.Get "Content-Length".toList = "7".toList ∧
      (exampleCall clk).w.sent = [(exampleCall clk).w.header] := by
  refine ⟨rfl, rfl, rfl, rfl, ?_, rfl, rfl, rfl, rfl⟩
  have hd : hexEncode (sha1Sum exampleBody) = "8724fc2165f042facbd9194627e4748bb7571b27".toList := by
    decide
  have h : (exampleCall clk).w.header.Get "ETag".toList =
      ['"'] ++ hexEncode (sha1Sum exampleBody) ++ ['"'] := rfl
  rw [h, hd]
  rfl

/-- C13: whether or not the request matches, `CheckETag` binds the `ETag`
header of the response (stored under its canonical name) to the single value
that is the tag between double quotes, with `W/` in front exactly when weak is
true, and every other header of the response is as before. -/
theorem CheckETag_sets_ETag (etag : Str) (weak : Bool) (w : ResponseWriter) (r : Request) :
    (CheckETag etag weak w r).1.header =
        Header.Set w.header "ETag".toList
          (if weak then ['W', '/', '"'] ++ etag ++ ['"'] else ['"'] ++ etag ++ ['"']) ∧
      GoMap.get (CheckETag etag weak w r).1.header "Etag".toList =
        some [if weak then ['W', '/', '"'] ++ etag ++ ['"'] else ['"'] ++ etag ++ ['"']] ∧
      (CheckETag etag weak w r).1.header.Get "ETag".toList =
        (if weak then ['W', '/', '"'] ++ etag ++ ['"'] else ['"'] ++ etag ++ ['"']) ∧
      (∀ k : Str, k ≠ "Etag".toList →
        GoMap.get (CheckETag etag weak w r).1.header k = GoMap.get w.header k) := by
  have hhdr : (CheckETag etag weak w r).1.header =
      Header.Set w.header "ETag".toList
        (if weak then ['W', '/', '"'] ++ etag ++ ['"'] else ['"'] ++ etag ++ ['"']) := by
    unfold CheckETag
    cases splitETags (r.Header.Get "If-None-Match".toList) weak etag with
    | none => cases weak <;> rfl
    | some tags =>
      by_cases hm : (tags.any fun tag => decide (tag = etag)) = true
      · simp only [hm, if_true]
        cases weak <;> rfl
      · simp only [hm]
        cases weak <;> rfl
  refine ⟨hhdr, ?_, ?_, ?_⟩
  · rw [hhdr, Header.Set, canonical_ETag, GoMap.get_set, if_pos rfl]
  · rw [hhdr, Header.Get_Set]
  · intro k hk
    have hk' : ¬ "Etag".toList = k := fun h => hk h.symm
    rw [hhdr, Header.Set, canonical_ETag, GoMap.get_set, if_neg hk']

/-! ### Weak and strong forms of a tag -/

theorem TrimSpace_ends (a b : Char) (u : Str) (ha : isSpace a = false)
    (hb : isSpace b = false) : TrimSpace (a :: u ++ [b]) = a :: u ++ [b] := by
  simp [TrimSpace, List.dropWhile, ha, hb]

theorem splitETags_weak_form (t : Str) (weak : Bool) (actual : Str)
    (h : ∀ c ∈ t, c ≠ ',') :
    splitETags ('W' :: '/' :: '"' :: t ++ ['"']) weak actual =
      some (if weak then [t] else []) := by
  have hsep : ∀ x ∈ 'W' :: ('/' :: '"' :: t ++ ['"']),
      (fun r : Char => r == ',') x = false := by
    intro x hx
    simp only [List.cons_append, List.mem_cons, List.mem_append, List.mem_singleton,
      List.not_mem_nil, or_false] at hx
    rcases hx with rfl | rfl | rfl | hx | rfl
    · decide
    · decide
    · decide
    · simpa using h x hx
    · decide
  have hf := FieldsFunc_no_sep (fun r : Char => r == ',') 'W' ('/' :: '"' :: t ++ ['"']) hsep
  have hne : ('W' :: '/' :: '"' :: t ++ ['"'] : Str) ≠ ['*'] := by
    intro hh
    have := List.head_eq_of_cons_eq hh
    exact absurd this (by decide)
  have hT : TrimSpace ('W' :: '/' :: '"' :: t ++ ['"']) = 'W' :: '/' :: '"' :: t ++ ['"'] := by
    have := TrimSpace_ends 'W' '"' ('/' :: '"' :: t) (by decide) (by decide)
    simpa using this
  have hlast : ('W' :: '/' :: '"' :: t ++ ['"'] : Str).getLast? = some '"' := by
    rw [List.getLast?_eq_some_iff]
    exact ⟨'W' :: '/' :: '"' :: t, by simp⟩
  have hnp : ¬ panicsOn weak ('W' :: '/' :: '"' :: t ++ ['"']) := by
    rintro (hp | ⟨_, hp⟩)
    · have := List.head_eq_of_cons_eq hp
      exact absurd this (by decide)
    · have := congrArg List.length hp
      simp at this
  have hdrop : (('W' :: '/' :: '"' :: t ++ ['"'] : Str).drop 3).dropLast = t := by
    simp
  unfold splitETags
  rw [if_neg hne]
  simp only [List.cons_append] at hf hT hlast hnp hdrop ⊢
  rw [hf, splitETags.loop_cons, hT, if_neg hnp]
  cases weak with
  | true =>
    have hs : specElement true ('W' :: '/' :: '"' :: (t ++ ['"'])) = some t := by
      unfold specElement
      rw [if_pos ⟨rfl, by simp, by simp, hlast⟩, hdrop]
    rw [hs]
    simp [splitETags.loop]
  | false =>
    have hs : specElement false ('W' :: '/' :: '"' :: (t ++ ['"'])) = none := by
      unfold specElement
      rw [if_neg (by simp), if_neg (by simp)]
    rw [hs]
    simp [splitETags.loop]

/-- C15 (counterexample): for the tag `a,b` and weak true, the request whose
`If-None-Match` is `W/"a,b"` is not matched: `CheckETag` returns false and
writes no status, because the header is cut at the comma inside the tag. -/
theorem weak_form_of_comma_tag_not_matched :
    commaTagRequest.Header.Get "If-None-Match".toList =
        ['W', '/', '"'] ++ "a,b".toList ++ ['"'] ∧
      (CheckETag "a,b".toList true emptyWriter commaTagRequest).2 = some false ∧
      (CheckETag "a,b".toList true emptyWriter commaTagRequest).1.calls = [] := by
  decide

/-- C15 (amended): for every tag that holds no comma, a request whose
`If-None-Match` is `W/"tag"` is not matched when weak is false (`CheckETag`
returns false and writes nothing), a request whose `If-None-Match` is `"tag"`
is matched for both values of weak, and `W/"tag"` is matched when weak is
true; a match writes the status 304. -/
theorem weak_and_strong_forms (tag : Str) (hcomma : ∀ c ∈ tag, c ≠ ',') :
    (∀ (w : ResponseWriter) (r : Request),
        r.Header.Get "If-None-Match".toList = ['W', '/', '"'] ++ tag ++ ['"'] →
        (CheckETag tag false w r).2 = some false ∧
        (CheckETag tag false w r).1.calls = w.calls) ∧
      (∀ (weak : Bool) (w : ResponseWriter) (r : Request),
        r.Header.Get "If-None-Match".toList = ['"'] ++ tag ++ ['"'] →
        (CheckETag tag weak w r).2 = some true ∧
        (CheckETag tag weak w r).1.statuses = w.statuses ++ [304] ∧
        (CheckETag tag weak w r).1.bodies = w.bodies) ∧
      (∀ (w : ResponseWriter) (r : Request),
        r.Header.Get "If-None-Match".toList = ['W', '/', '"'] ++ tag ++ ['"'] →
        (CheckETag tag true w r).2 = some true ∧
        (CheckETag tag true w r).1.statuses = w.statuses ++ [304] ∧
        (CheckETag tag true w r).1.bodies = w.bodies) := by
  refine ⟨?_, ?_, ?_⟩
  · intro w r hr
    have hs : splitETags (r.Header.Get "If-None-Match".toList) false tag = some [] := by
      rw [hr]
      simpa using splitETags_weak_form tag false tag hcomma
    rw [CheckETag_of_tags tag false w r [] hs]
    simp
  · intro weak w r hr
    have hs : splitETags (r.Header.Get "If-None-Match".toList) weak tag = some [tag] := by
      rw [hr]
      simpa using splitETags_quoted tag weak tag hcomma
    rw [CheckETag_of_tags tag weak w r [tag] hs]
    cases weak <;> simp [StatusNotModified]
  · intro w r hr
    have hs : splitETags (r.Header.Get "If-None-Match".toList) true tag = some [tag] := by
      rw [hr]
      simpa using splitETags_weak_form tag true tag hcomma
    rw [CheckETag_of_tags tag true w r [tag] hs]
    simp [StatusNotModified]

/-- Witness of C15 (amended) on the tag `abc`. -/
theorem weak_and_strong_forms_witness :
    (∀ c ∈ "abc".toList, c ≠ ',') ∧
    ((∀ (w : ResponseWriter) (r : Request),
        r.Header.Get "If-None-Match".toList = ['W', '/', '"'] ++ "abc".toList ++ ['"'] →
        (CheckETag "abc".toList false w r).2 = some false ∧
        (CheckETag "abc".toList false w r).1.calls = w.calls) ∧
      (∀ (weak : Bool) (w : ResponseWriter) (r : Request),
        r.Header.Get "If-None-Match".toList = ['"'] ++ "abc".toList ++ ['"'] →
        (CheckETag "abc".toList weak w r).2 = some true ∧
        (CheckETag "abc".toList weak w r).1.statuses = w.statuses ++ [304] ∧
        (CheckETag "abc".toList weak w r).1.bodies = w.bodies) ∧
      (∀ (w : ResponseWriter) (r : Request),
        r.Header.Get "If-None-Match".toList = ['W', '/', '"'] ++ "abc".toList ++ ['"'] →
        (CheckETag "abc".toList true w r).2 = some true ∧
        (CheckETag "abc".toList true w r).1.statuses = w.statuses ++ [304] ∧
        (CheckETag "abc".toList true w r).1.bodies = w.bodies)) :=
  ⟨by decide, weak_and_strong_forms "abc".toList (by decide)⟩

/-! ### The write path: eviction, the new entry and the clock -/

theorem lookupValid_clock (c : ResponseCache) (clk : Clock) (k : Str) :
    (c.lookupValid clk k).2 = clk ∨ (c.lookupValid clk k).2 = clk.tail := by
  unfold ResponseCache.lookupValid
  cases GoMap.get c.cached k with
  | none => exact Or.inl rfl
  | some e =>
    by_cases hv : e.valid clk.now = true
    · simp [hv]
    · simp [hv]

theorem Response_cases {σ : Type} (lib : Lib) (c : ResponseCache) (clk : Clock)
    (order : List (Str × cacheEntry)) (k : Str) (d : Duration) (w : ResponseWriter)
    (r : Request) (f : Producer σ) (s : σ) :
    ((c.Response lib clk order k d w r f s).cache = c ∧
        (c.Response lib clk order k d w r f s).state = s ∧
        ∃ e i, GoMap.get c.cached k = some e ∧ clk i < e.end ∧
          (c.Response lib clk order k d w r f s).w = (e.serve lib w r).1) ∨
      ∃ j, c.Response lib clk order k d w r f s =
        c.writePath lib (fun n => clk (n + j)) order k d w r f s := by
  unfold ResponseCache.Response
  cases h1 : (c.lookupValid clk k).1 with
  | some e =>
    have hp : c.lookupValid clk k = (some e, (c.lookupValid clk k).2) := Prod.ext h1 rfl
    rw [hp]
    exact Or.inl ⟨rfl, rfl, e, 0, (lookupValid_some c clk k e h1).1,
      (lookupValid_some c clk k e h1).2, rfl⟩
  | none =>
    have hp : c.lookupValid clk k = (none, (c.lookupValid clk k).2) := Prod.ext h1 rfl
    rw [hp]
    simp only []
    have hshift1 : ∃ j, (c.lookupValid clk k).2 = fun n => clk (n + j) := by
      rcases lookupValid_clock c clk k with h | h
      · exact ⟨0, by rw [h]; rfl⟩
      · exact ⟨1, by rw [h]; rfl⟩
    obtain ⟨j1, hj1⟩ := hshift1
    generalize (c.lookupValid clk k).2 = clk1 at hj1
    cases h2 : (c.lookupValid clk1 k).1 with
    | some e =>
      have hp2 : c.lookupValid clk1 k = (some e, (c.lookupValid clk1 k).2) := Prod.ext h2 rfl
      rw [hp2]
      have hlt := (lookupValid_some c clk1 k e h2).2
      rw [hj1] at hlt
      exact Or.inl ⟨rfl, rfl, e, 0 + j1, (lookupValid_some c clk1 k e h2).1, hlt, rfl⟩
    | none =>
      have hp2 : c.lookupValid clk1 k = (none, (c.lookupValid clk1 k).2) := Prod.ext h2 rfl
      rw [hp2]
      simp only []
      right
      rcases lookupValid_clock c clk1 k with h | h
      · exact ⟨j1, by rw [h, hj1]⟩
      · refine ⟨j1 + 1, ?_⟩
        rw [h, hj1]
        have : (Clock.tail fun n => clk (n + j1)) = fun n => clk (n + (j1 + 1)) := by
          funext n
          simp only [Clock.tail]
          congr 1
          omega
        rw [this]

theorem evictLoop_clock (order : List (Str × cacheEntry)) (visited : Nat)
    (m : GoMap Str cacheEntry) (clk : Clock) :
    ∃ j, (evictLoop order visited m clk).2 = fun n => clk (n + j) := by
  induction order generalizing visited m clk with
  | nil => exact ⟨0, rfl⟩
  | cons b rest ih =>
    obtain ⟨p, e⟩ := b
    by_cases hv : visited > maxVisitedCacheEntries
    · exact ⟨0, by simp [evictLoop, hv]⟩
    · simp only [evictLoop, if_neg hv]
      obtain ⟨j, hj⟩ := ih (visited + 1)
        (if (!e.valid clk.now) = true then GoMap.delete m p else m) clk.tail
      refine ⟨j + 1, ?_⟩
      rw [hj]
      funext n
      simp only [Clock.tail]
      congr 1

theorem evictLoop_keeps (order : List (Str × cacheEntry)) (visited : Nat)
    (m : GoMap Str cacheEntry) (clk : Clock) (k' : Str)
    (h : ∀ b ∈ order, b.1 = k' → ∀ i, b.2.valid (clk i) = true) :
    GoMap.get (evictLoop order visited m clk).1 k' = GoMap.get m k' := by
  induction order generalizing visited m clk with
  | nil => rfl
  | cons b rest ih =>
    obtain ⟨p, e⟩ := b
    by_cases hv : visited > maxVisitedCacheEntries
    · simp [evictLoop, hv]
    · simp only [evictLoop, if_neg hv]
      have hrest : ∀ b ∈ rest, b.1 = k' → ∀ i, b.2.valid (clk.tail i) = true :=
        fun b hb hk i => h b (List.mem_cons_of_mem _ hb) hk (i + 1)
      rw [ih (visited + 1) _ clk.tail hrest]
      by_cases hval : e.valid clk.now = true
      · simp [hval]
      · have hpk : ¬ p = k' := by
          intro hpk
          exact hval (h (p, e) (List.mem_cons_self _ _) hpk 0)
        simp [hval, GoMap.get_delete, hpk]

theorem serve_unconditional (lib : Lib) (e : cacheEntry) (w : ResponseWriter) (r : Request)
    (hinm : r.Header.Get "If-None-Match".toList = [])
    (hims : lib.parseTime (r.Header.Get "If-Modified-Since".toList) = none) :
    (e.serve lib w r).2 = some () ∧
      (e.serve lib w r).1.calls = w.calls ++
        [WriteEvent.status e.code (e.serve lib w r).1.header, WriteEvent.body e.body] := by
  have hs : splitETags (r.Header.Get "If-None-Match".toList) false e.etag = some [] := by
    rw [hinm]
    rfl
  have hE := CheckETag_of_tags e.etag false
    { w with header := copyHeaders e.headers w.header } r [] hs
  unfold cacheEntry.serve
  simp only [hE, List.not_mem_nil, if_false]
  unfold CheckLastModified
  simp only [hims]
  refine ⟨trivial, ?_⟩
  simp [ResponseWriter.WriteHeader, ResponseWriter.Write, ResponseWriter.SetHeader]

theorem clock_mono (clk : Clock) (hmono : ∀ i, clk i ≤ clk (i + 1)) (i j : Nat) :
    clk i ≤ clk (i + j) := by
  induction j with
  | zero => exact le_refl _
  | succ n ih => exact le_trans ih (hmono (i + n))

/-- C16: when `range` yields bindings of the map, a write-path call for `k`
keeps, unchanged, every entry stored under another key that is valid at every
reading of the clock during the call; the same holds of `Response` as a whole,
whose other paths leave the map as it is. -/
theorem writePath_keeps_valid_entries {σ : Type} (lib : Lib) (c : ResponseCache) (clk : Clock)
    (order : List (Str × cacheEntry)) (k : Str) (d : Duration) (w : ResponseWriter)
    (r : Request) (f : Producer σ) (s : σ) (k' : Str) (e' : cacheEntry)
    (hord : ∀ b ∈ order, GoMap.get c.cached b.1 = some b.2)
    (hk : k' ≠ k) (hget : GoMap.get c.cached k' = some e')
    (hvalid : ∀ i, clk i < e'.end) :
    GoMap.get (c.writePath lib clk order k d w r f s).cache.cached k' = some e' ∧
      GoMap.get (c.Response lib clk order k d w r f s).cache.cached k' = some e' := by
  have hwp : ∀ clk2 : Clock, (∀ i, clk2 i < e'.end) →
      GoMap.get (c.writePath lib clk2 order k d w r f s).cache.cached k' = some e' := by
    intro clk2 hv2
    have hkeep : ∀ b ∈ order, b.1 = k' → ∀ i, b.2.valid (clk2 i) = true := by
      intro b hb hbk i
      have hb2 : b.2 = e' := by
        have h1 := hord b hb
        rw [hbk, hget] at h1
        exact (Option.some.inj h1).symm
      rw [hb2]
      simp only [cacheEntry.valid, decide_eq_true_eq]
      exact sub_neg.mpr (hv2 i)
    have hk' : ¬ k = k' := fun h => hk h.symm
    simp only [ResponseCache.writePath, GoMap.get_set, if_neg hk']
    rw [evictLoop_keeps order 0 c.cached clk2 k' hkeep]
    exact hget
  refine ⟨hwp clk hvalid, ?_⟩
  rcases Response_cases lib c clk order k d w r f s with ⟨hc, _⟩ | ⟨j, hj⟩
  · rw [hc]
    exact hget
  · rw [hj]
    exact hwp _ (fun i => hvalid (i + j))

set_option maxRecDepth 100000 in
/-- Witness of C16: the cache holds the valid `hiEntry` under `/a`, and the
write-path call is for `/new`. -/
theorem writePath_keeps_valid_entries_witness :
    (∀ b ∈ hiCache.cached, GoMap.get hiCache.cached b.1 = some b.2) ∧
      "/a".toList ≠ "/new".toList ∧
      GoMap.get hiCache.cached "/a".toList = some hiEntry ∧
      (∀ i, laterClock i < hiEntry.end) ∧
      (GoMap.get (hiCache.writePath stdlib laterClock hiCache.cached "/new".toList twoHours
          emptyWriter (requestWith []) (writeBody 200 (asBytes "ho")) 0).cache.cached
          "/a".toList = some hiEntry ∧
        GoMap.get (hiCache.Response stdlib laterClock hiCache.cached "/new".toList twoHours
          emptyWriter (requestWith []) (writeBody 200 (asBytes "ho")) 0).cache.cached
          "/a".toList = some hiEntry) :=
  have hv : ∀ i, laterClock i < hiEntry.end := fun _ => by
    have h0 : laterClock 0 < hiEntry.end := by decide
    exact h0
  ⟨by decide, by decide, by decide, hv,
    writePath_keeps_valid_entries stdlib hiCache laterClock hiCache.cached "/new".toList twoHours
      emptyWriter (requestWith []) (writeBody 200 (asBytes "ho")) 0 "/a".toList hiEntry
      (by decide) (by decide) (by decide) hv⟩

theorem writePath_window {σ : Type} (lib : Lib) (c : ResponseCache) (clk : Clock)
    (order : List (Str × cacheEntry)) (k : Str) (d : Duration) (w : ResponseWriter)
    (r : Request) (f : Producer σ) (s : σ) :
    ∃ (j : Nat) (e' : cacheEntry),
      GoMap.get (c.writePath lib clk order k d w r f s).cache.cached k = some e' ∧
      e'.start = clk j ∧ e'.end = clk (j + 1) + d ∧
      e'.code = (f s NewRecorder).2.Code ∧ e'.body = (f s NewRecorder).2.Body ∧
      (c.writePath lib clk order k d w r f s).state = (f s NewRecorder).1 ∧
      (c.writePath lib clk order k d w r f s).w = (e'.serve lib w r).1 ∧
      (c.writePath lib clk order k d w r f s).returned = (e'.serve lib w r).2.isSome ∧
      (c.writePath lib clk order k d w r f s).clock = fun n => clk (n + (j + 2)) := by
  obtain ⟨j, hj⟩ := evictLoop_clock order 0 c.cached clk
  refine ⟨j, _, ?_, ?_, ?_, rfl, rfl, rfl, rfl, rfl, ?_⟩
  · simp only [ResponseCache.writePath, GoMap.get_set, if_true]
  · simp only [ResponseCache.writePath, cacheEntry.cache, hj, Clock.now]
    congr 1
    omega
  · simp only [ResponseCache.writePath, cacheEntry.cache, hj, Clock.now, Clock.tail]
    congr 2
    omega
  · simp only [ResponseCache.writePath, hj]
    funext n
    show clk (n + 1 + 1 + j) = clk (n + (j + 2))
    congr 1
    omega

set_option maxRecDepth 100000 in
/-- C17 (counterexample): on a clock that advances by one nanosecond at every
reading, the entry created by the example call with a ttl of two hours has an
end that is two hours and one nanosecond after its start. -/
theorem new_entry_end_is_not_start_plus_ttl :
    (GoMap.get (exampleCall tickClock).cache.cached "/a".toList).map
        (fun e => e.end - e.start) = some (twoHours + 1) ∧
      (GoMap.get (exampleCall tickClock).cache.cached "/a".toList).map
        (fun e => decide (e.end = e.start + twoHours)) = some false := by
  decide

/-- C17 (amended): the entry created by a write-path call has as start one
reading of the clock and as end the next reading plus the ttl, so that its end
is its start plus the ttl exactly when these two readings are equal; a call of
`Response` either leaves the map as it is or creates such an entry. -/
theorem new_entry_window {σ : Type} (lib : Lib) (c : ResponseCache) (clk : Clock)
    (order : List (Str × cacheEntry)) (k : Str) (d : Duration) (w : ResponseWriter)
    (r : Request) (f : Producer σ) (s : σ) :
    (∃ (j : Nat) (e' : cacheEntry),
      GoMap.get (c.writePath lib clk order k d w r f s).cache.cached k = some e' ∧
      e'.start = clk j ∧ e'.end = clk (j + 1) + d ∧
      (e'.end = e'.start + d ↔ clk (j + 1) = clk j)) ∧
    ((c.Response lib clk order k d w r f s).cache = c ∨
      ∃ (j : Nat) (e' : cacheEntry),
        GoMap.get (c.Response lib clk order k d w r f s).cache.cached k = some e' ∧
        e'.start = clk j ∧ e'.end = clk (j + 1) + d ∧
        (e'.end = e'.start + d ↔ clk (j + 1) = clk j)) := by
  have hwp : ∀ clk2 : Clock, ∃ (j : Nat) (e' : cacheEntry),
      GoMap.get (c.writePath lib clk2 order k d w r f s).cache.cached k = some e' ∧
      e'.start = clk2 j ∧ e'.end = clk2 (j + 1) + d ∧
      (e'.end = e'.start + d ↔ clk2 (j + 1) = clk2 j) := by
    intro clk2
    obtain ⟨j, e', hget, hs, he, _⟩ := writePath_window lib c clk2 order k d w r f s
    refine ⟨j, e', hget, hs, he, ?_⟩
    rw [hs, he]
    exact add_left_inj d
  refine ⟨hwp clk, ?_⟩
  rcases Response_cases lib c clk order k d w r f s with ⟨hc, _⟩ | ⟨j, hj⟩
  · exact Or.inl hc
  · right
    rw [hj]
    obtain ⟨j2, e', hget, hs, he, hiff⟩ := hwp (fun n => clk (n + j))
    exact ⟨j2 + j, e', hget, hs, by rw [he]; congr 2; omega, by
      rw [hiff]
      have h1 : j2 + 1 + j = j2 + j + 1 := by omega
      rw [h1]⟩

set_option maxRecDepth 100000 in
/-- C19 (counterexample): the cache holds under `/a` the entry `hiEntry`, made
with a ttl of two hours and still valid; a call of `Response` for `/a` with a
ttl of zero does not run the producer and serves the stored body `hi` from the
cache. -/
theorem zero_ttl_served_from_cache :
    GoMap.get hiCache.cached "/a".toList = some hiEntry ∧
      hiEntry.valid laterClock.now = true ∧
      (hiCache.Response stdlib laterClock hiCache.cached "/a".toList 0 emptyWriter
        (requestWith []) (writeBody 200 (asBytes "ho")) 7).state = 7 ∧
      (hiCache.Response stdlib laterClock hiCache.cached "/a".toList 0 emptyWriter
        (requestWith []) (writeBody 200 (asBytes "ho")) 7).cache = hiCache ∧
      (hiCache.Response stdlib laterClock hiCache.cached "/a".toList 0 emptyWriter
        (requestWith []) (writeBody 200 (asBytes "ho")) 7).w.bodies = [asBytes "hi"] := by
  decide

/-- C19 (amended): when the ttl is zero or negative, the clock never runs backwards and
no entry that is still valid is stored under `k`, `Response` runs the producer
once and serves the entry built from that run (to a request without
conditional headers: the captured status, then the captured body); the entry
it stores has its end at or before every later reading of the clock, and the
next call of `Response` for `k`, whatever its arguments, runs its producer
again. -/
theorem nonpositive_ttl_never_caches {σ : Type} (lib : Lib) (c : ResponseCache) (clk : Clock)
    (order : List (Str × cacheEntry)) (k : Str) (d : Duration) (w : ResponseWriter)
    (r : Request) (f : Producer σ) (s : σ)
    (hd : d ≤ 0) (hmono : ∀ i, clk i ≤ clk (i + 1))
    (hexp : ∀ e, GoMap.get c.cached k = some e → e.end ≤ clk 0) :
    ∃ e' : cacheEntry,
      (c.Response lib clk order k d w r f s).state = (f s NewRecorder).1 ∧
      GoMap.get (c.Response lib clk order k d w r f s).cache.cached k = some e' ∧
      e'.code = (f s NewRecorder).2.Code ∧
      e'.body = (f s NewRecorder).2.Body ∧
      (c.Response lib clk order k d w r f s).w = (e'.serve lib w r).1 ∧
      (r.Header.Get "If-None-Match".toList = [] →
        lib.parseTime (r.Header.Get "If-Modified-Since".toList) = none →
        (c.Response lib clk order k d w r f s).w.calls = w.calls ++
          [WriteEvent.status e'.code (c.Response lib clk order k d w r f s).w.header,
           WriteEvent.body e'.body]) ∧
      (∀ i, e'.end ≤ (c.Response lib clk order k d w r f s).clock i) ∧
      (∀ i, (c.Response lib clk order k d w r f s).clock i ≤
        (c.Response lib clk order k d w r f s).clock (i + 1)) ∧
      (∀ (order' : List (Str × cacheEntry)) (d' : Duration) (w' : ResponseWriter)
          (r' : Request) (f' : Producer σ) (s' : σ),
        ((c.Response lib clk order k d w r f s).cache.Response lib
          (c.Response lib clk order k d w r f s).clock order' k d' w' r' f' s').state =
          (f' s' NewRecorder).1) := by
  have hexp' : ∀ e, GoMap.get c.cached k = some e → ∀ i, e.end ≤ clk i := by
    intro e he i
    have h1 := clock_mono clk hmono 0 i
    rw [Nat.zero_add] at h1
    exact le_trans (hexp e he) h1
  rcases Response_cases lib c clk order k d w r f s with ⟨_, _, e, i, hget, hlt, _⟩ | ⟨j, hj⟩
  · exact absurd hlt (not_lt.mpr (hexp' e hget i))
  · rw [hj]
    obtain ⟨j2, e', hget, hs, he, hcode, hbody, hstate, hw, _, hclock⟩ :=
      writePath_window lib c (fun n => clk (n + j)) order k d w r f s
    have hend : ∀ i, e'.end ≤
        (c.writePath lib (fun n => clk (n + j)) order k d w r f s).clock i := by
      intro i
      rw [hclock, he]
      have h1 := clock_mono clk hmono (j2 + 1 + j) (i + 1)
      have h2 : j2 + 1 + j + (i + 1) = i + (j2 + 2) + j := by omega
      rw [h2] at h1
      exact le_trans (add_le_of_nonpos_right hd) h1
    refine ⟨e', hstate, hget, hcode, hbody, hw, ?_, hend, ?_, ?_⟩
    · intro hinm hims
      rw [hw]
      exact (serve_unconditional lib e' w r hinm hims).2
    · intro i
      rw [hclock]
      show clk (i + (j2 + 2) + j) ≤ clk (i + 1 + (j2 + 2) + j)
      have h1 := hmono (i + (j2 + 2) + j)
      have h2 : i + 1 + (j2 + 2) + j = i + (j2 + 2) + j + 1 := by omega
      rw [h2]
      exact h1
    · intro order' d' w' r' f' s'
      rcases Response_cases lib (c.writePath lib (fun n => clk (n + j)) order k d w r f s).cache
          (c.writePath lib (fun n => clk (n + j)) order k d w r f s).clock order' k d' w' r' f' s'
        with ⟨_, _, e2, i, hget2, hlt2, _⟩ | ⟨j3, hj3⟩
      · rw [hget] at hget2
        have he2 : e' = e2 := Option.some.inj hget2
        subst he2
        exact absurd hlt2 (not_lt.mpr (hend i))
      · rw [hj3]
        rfl

set_option maxRecDepth 100000 in
/-- Witness of C19 (amended): the expired `hiEntry` is stored under `/a`, the clock stands
still after its end, and the ttl is zero. -/
theorem nonpositive_ttl_never_caches_witness :
    (0 : Duration) ≤ 0 ∧
      (∀ i, threeOClock i ≤ threeOClock (i + 1)) ∧
      (∀ e, GoMap.get hiCache.cached "/a".toList = some e → e.end ≤ threeOClock 0) ∧
      ∃ e' : cacheEntry,
        (hiCache.Response stdlib threeOClock hiCache.cached "/a".toList 0 emptyWriter
          (requestWith []) (writeBody 200 (asBytes "ho")) 7).state =
            (writeBody 200 (asBytes "ho") 7 NewRecorder).1 ∧
        GoMap.get (hiCache.Response stdlib threeOClock hiCache.cached "/a".toList 0 emptyWriter
          (requestWith []) (writeBody 200 (asBytes "ho")) 7).cache.cached "/a".toList =
            some e' ∧
        e'.code = (writeBody 200 (asBytes "ho") 7 NewRecorder).2.Code ∧
        e'.body = (writeBody 200 (asBytes "ho") 7 NewRecorder).2.Body ∧
        (hiCache.Response stdlib threeOClock hiCache.cached "/a".toList 0 emptyWriter
          (requestWith []) (writeBody 200 (asBytes "ho")) 7).w =
            (e'.serve stdlib emptyWriter (requestWith [])).1 ∧
        ((requestWith []).Header.Get "If-None-Match".toList = [] →
          stdlib.parseTime ((requestWith []).Header.Get "If-Modified-Since".toList) = none →
          (hiCache.Response stdlib threeOClock hiCache.cached "/a".toList 0 emptyWriter
            (requestWith []) (writeBody 200 (asBytes "ho")) 7).w.calls = emptyWriter.calls ++
            [WriteEvent.status e'.code
              (hiCache.Response stdlib threeOClock hiCache.cached "/a".toList 0 emptyWriter
                (requestWith []) (writeBody 200 (asBytes "ho")) 7).w.header,
             WriteEvent.body e'.body]) ∧
        (∀ i, e'.end ≤ (hiCache.Response stdlib threeOClock hiCache.cached "/a".toList 0
          emptyWriter (requestWith []) (writeBody 200 (asBytes "ho")) 7).clock i) ∧
        (∀ i, (hiCache.Response stdlib threeOClock hiCache.cached "/a".toList 0
            emptyWriter (requestWith []) (writeBody 200 (asBytes "ho")) 7).clock i ≤
          (hiCache.Response stdlib threeOClock hiCache.cached "/a".toList 0
            emptyWriter (requestWith []) (writeBody 200 (asBytes "ho")) 7).clock (i + 1)) ∧
        (∀ (order' : List (Str × cacheEntry)) (d' : Duration) (w' : ResponseWriter)
            (r' : Request) (f' : Producer Nat) (s' : Nat),
          ((hiCache.Response stdlib threeOClock hiCache.cached "/a".toList 0 emptyWriter
              (requestWith []) (writeBody 200 (asBytes "ho")) 7).cache.Response stdlib
            (hiCache.Response stdlib threeOClock hiCache.cached "/a".toList 0 emptyWriter
              (requestWith []) (writeBody 200 (asBytes "ho")) 7).clock
            order' "/a".toList d' w' r' f' s').state = (f' s' NewRecorder).1) :=
  have hmono : ∀ i, threeOClock i ≤ threeOClock (i + 1) := fun _ => le_refl _
  have hexp : ∀ e, GoMap.get hiCache.cached "/a".toList = some e → e.end ≤ threeOClock 0 :=
    fun e he => by
      have h0 : GoMap.get hiCache.cached "/a".toList = some hiEntry := by decide
      have he' : hiEntry = e := Option.some.inj (h0.symm.trans he)
      subst he'
      decide
  ⟨le_refl _, hmono, hexp,
    nonpositive_ttl_never_caches stdlib hiCache threeOClock hiCache.cached "/a".toList 0
      emptyWriter (requestWith []) (writeBody 200 (asBytes "ho")) 7 (le_refl _) hmono hexp⟩

/-! ### How far the eviction scan reaches -/

theorem slot_valid (n : Nat) :
    (slot n).2.valid halfPastClock.now = decide (5152 ≤ n) := by
  by_cases hn : n < 5152
  · have h1 : expiredEntry.valid halfPastClock.now = false := by decide
    have h2 : ¬ 5152 ≤ n := by omega
    simp [slot, hn, h1, h2]
  · have h1 : hiEntry.valid halfPastClock.now = true := by decide
    have h2 : 5152 ≤ n := by omega
    simp [slot, hn, h1, h2]

set_option maxRecDepth 100000 in
/-- The three calls `smallCalls` on `smallStaleCache` are write-path calls, each
made while fewer than 100 entries of the map are valid (none, one and two of
them), so that the amounts by which the valid entries fall short of 100 add up
to 297, more than the three entries the cache holds; after the calls the
producer has run three times and the map holds the three entries the calls
created. -/
theorem smallCalls_admissible :
    Admissible stdlib halfPast maxVisitedCacheEntries smallCalls smallState0 ∧
      scanRoom stdlib halfPast smallCalls smallState0 = 297 ∧
      smallStaleCache.cached.length ≤ smallCalls.length ∧
      (runCalls stdlib halfPast smallCalls smallState0).2 = 3 ∧
      (runCalls stdlib halfPast smallCalls smallState0).1.cached.map Prod.fst =
        ["/n2".toList, "/n1".toList, "/n0".toList] :=
  ⟨⟨List.Perm.refl _, by decide, by decide, List.Perm.refl _, by decide, by decide,
      List.Perm.refl _, by decide, by decide, trivial⟩,
    by decide, by decide, by decide, by decide⟩

end Http2
